import Mathlib

/-!
Verification of the natural-language specification of the y-crdt engine
against its Rust sources.

The development shallowly embeds the relevant parts of the code:

* lib0 primitive codec (variable-length integers, fixed-width integers,
  IEEE-754 floats at bit level) — the spec treats these as primitive I/O,
  so they are modelled from the spec in their canonical LEB128 / network
  byte order form;
* the lib0 Any value model and its binary codec (src/lib0/src/any.rs);
* the block store (src/yrs/src/block_store.rs): StateVector, ClientBlockList,
  BlockStore::from, find_pivot, get_state;
* the v1 update codec and merge_updates (update.rs is not part of the
  sources, so those are modelled from the spec, section 4.3-4.5);
* the branch model (src/yrs/src/branch.rs): insert_at, remove_at, path,
  repair_type_ref;
* the move-aware cursor (src/yrs/src/cursor.rs): forward, read, MoveStack.

Byte streams are List Nat (each element one byte), decoders are fallible
functions from a stream to an optional value paired with the remaining
stream, and Rust panics are modelled as a dedicated outcome constructor.
Loops whose termination is not structural carry explicit fuel.
-/

namespace YSpec

/-! ## lib0 primitive codec

Modelled from the spec: the variable-length integer codec
(read_var / write_var) is "treated as primitive I/O" (spec section 1), in
its canonical little-endian base-128 form with a continuation bit, which
is the form all compatibility byte vectors in the repository use. -/

/-- Structural worker for the unsigned var-int writer; the fuel strictly
exceeds the value, which suffices since the value shrinks by a factor of
128 each step. -/
def writeVarUintAux : Nat → Nat → List Nat
  | 0, _ => []
  | fuel + 1, n => if n < 128 then [n] else (n % 128 + 128) :: writeVarUintAux fuel (n / 128)

/-- Unsigned variable-length integer writer (canonical LEB128). -/
def writeVarUint (n : Nat) : List Nat := writeVarUintAux (n + 1) n

theorem writeVarUintAux_congr : ∀ n f1 f2, n < f1 → n < f2 →
    writeVarUintAux f1 n = writeVarUintAux f2 n := by
  intro n
  induction n using Nat.strong_induction_on with
  | _ n ih =>
    intro f1 f2 h1 h2
    obtain ⟨g1, rfl⟩ : ∃ g, f1 = g + 1 := ⟨f1 - 1, by omega⟩
    obtain ⟨g2, rfl⟩ : ∃ g, f2 = g + 1 := ⟨f2 - 1, by omega⟩
    by_cases h : n < 128
    · simp [writeVarUintAux, h]
    · have hdiv : n / 128 < n := Nat.div_lt_self (by omega) (by omega)
      simp only [writeVarUintAux, h, if_false]
      rw [ih (n / 128) hdiv g1 g2 (by omega) (by omega)]

theorem writeVarUint_eq (n : Nat) :
    writeVarUint n = if n < 128 then [n] else (n % 128 + 128) :: writeVarUint (n / 128) := by
  by_cases h : n < 128
  · unfold writeVarUint
    simp [writeVarUintAux, h]
  · rw [if_neg h]
    show writeVarUintAux (n + 1) n = (n % 128 + 128) :: writeVarUintAux (n / 128 + 1) (n / 128)
    rw [writeVarUintAux, if_neg h]
    have hdiv : n / 128 < n := Nat.div_lt_self (by omega) (by omega)
    rw [writeVarUintAux_congr (n / 128) n (n / 128 + 1) hdiv (by omega)]

/-- Unsigned variable-length integer reader. -/
def readVarUint : List Nat → Option (Nat × List Nat)
  | [] => none
  | b :: rest =>
    if b < 128 then some (b, rest)
    else
      match readVarUint rest with
      | some (n, r) => some (b % 128 + 128 * n, r)
      | none => none

theorem readVarUint_writeVarUint (n : Nat) (rest : List Nat) :
    readVarUint (writeVarUint n ++ rest) = some (n, rest) := by
  induction n using Nat.strong_induction_on with
  | _ n ih =>
    by_cases h : n < 128
    · rw [writeVarUint_eq]
      simp [h, readVarUint]
    · rw [writeVarUint_eq]
      simp only [h, if_false, List.cons_append]
      have hdiv : n / 128 < n := Nat.div_lt_self (by omega) (by omega)
      rw [readVarUint]
      have hge : ¬ (n % 128 + 128 < 128) := by omega
      simp only [hge, if_false]
      rw [ih (n / 128) hdiv]
      show some ((n % 128 + 128) % 128 + 128 * (n / 128), rest) = some (n, rest)
      have : (n % 128 + 128) % 128 + 128 * (n / 128) = n := by
        have h1 : (n % 128 + 128) % 128 = n % 128 := by omega
        rw [h1]
        omega
      rw [this]

/-- Signed variable-length integer writer, as used by lib0 write_var for
signed integers: the first byte carries bit 6 as the sign and six payload
bits; later bytes carry seven payload bits; bit 7 is the continuation bit. -/
def writeVarInt (v : Int) : List Nat :=
  let neg := v < 0
  let m := v.natAbs
  let first :=
    (if 64 ≤ m then 128 else 0) + (if neg then 64 else 0) + m % 64
  if 64 ≤ m then first :: writeVarUint (m / 64) else [first]

/-- Signed variable-length integer reader, inverse of writeVarInt. -/
def readVarInt : List Nat → Option (Int × List Nat)
  | [] => none
  | b :: rest =>
    let neg := b % 128 / 64 = 1
    let low := b % 64
    if b < 128 then
      some (if neg then -(low : Int) else (low : Int), rest)
    else
      match readVarUint rest with
      | some (hi, r) =>
        let m := low + 64 * hi
        some (if neg then -(m : Int) else (m : Int), r)
      | none => none

theorem readVarInt_writeVarInt (v : Int) (rest : List Nat) :
    readVarInt (writeVarInt v ++ rest) = some (v, rest) := by
  by_cases hm : 64 ≤ v.natAbs <;> by_cases hneg : v < 0 <;>
    simp only [writeVarInt, hm, hneg, if_true, if_false, List.cons_append,
      List.singleton_append, readVarInt, readVarUint_writeVarUint] <;>
    split_ifs <;>
    first
      | (exfalso; omega)
      | (simp only [Option.some.injEq, Prod.mk.injEq, List.nil_append, and_true]; omega)

/-- Fixed-width big-endian byte writer (lib0 writes fixed-width integers
and floats in network byte order). Writes the low 8*w bits of n. -/
def writeBytesBE : Nat → Nat → List Nat
  | 0, _ => []
  | w + 1, n => (n / 2 ^ (8 * w)) % 256 :: writeBytesBE w n

/-- Fixed-width big-endian byte reader. -/
def readBytesBE : Nat → List Nat → Option (Nat × List Nat)
  | 0, st => some (0, st)
  | _ + 1, [] => none
  | w + 1, b :: st =>
    match readBytesBE w st with
    | some (n, r) => some (b * 2 ^ (8 * w) + n, r)
    | none => none

theorem readBytesBE_writeBytesBE (w n : Nat) (rest : List Nat) :
    readBytesBE w (writeBytesBE w n ++ rest) = some (n % 2 ^ (8 * w), rest) := by
  induction w generalizing rest with
  | zero => simp [writeBytesBE, readBytesBE, Nat.mod_one]
  | succ w ih =>
    simp only [writeBytesBE, List.cons_append, readBytesBE, List.append_eq, ih]
    have h256 : (0 : Nat) < 256 := by omega
    have hsplit : n / 2 ^ (8 * w) % 256 * 2 ^ (8 * w) + n % 2 ^ (8 * w)
        = n % 2 ^ (8 * (w + 1)) := by
      have hpow : 2 ^ (8 * (w + 1)) = 2 ^ (8 * w) * 256 := by
        rw [Nat.mul_add, Nat.pow_add]
      rw [hpow, Nat.mod_mul]
      ring
    rw [hsplit]

/-- Conversion of a signed 64-bit integer to its unsigned bit pattern. -/
def i64ToU64 (v : Int) : Nat := (v % (2 ^ 64 : Nat)).toNat

/-- Conversion of an unsigned 64-bit pattern back to the signed value. -/
def u64ToI64 (n : Nat) : Int := if n < 2 ^ 63 then (n : Int) else (n : Int) - 2 ^ 64

theorem u64ToI64_i64ToU64 (v : Int) (h1 : -(2 ^ 63) ≤ v) (h2 : v < 2 ^ 63) :
    u64ToI64 (i64ToU64 v) = v := by
  unfold u64ToI64 i64ToU64
  split <;> omega

theorem i64ToU64_lt (v : Int) : i64ToU64 v < 2 ^ 64 := by
  unfold i64ToU64
  omega

/-! ## IEEE-754 doubles and floats at bit level

Rust f64 values are modelled by their 64-bit pattern (a Nat below 2^64)
and f32 values by their 32-bit pattern. The cast (x as f32) is the IEEE
round-to-nearest-even narrowing and (y as f64) the exact widening; both
are defined here directly on bit patterns. Rust equality of f64 values
(PartialEq) is bit equality except that NaN compares unequal to
everything and the two signed zeros compare equal. -/

/-- Exponent field of an f64 bit pattern. -/
def f64Exp (b : Nat) : Nat := b / 2 ^ 52 % 2 ^ 11

/-- Mantissa field of an f64 bit pattern. -/
def f64Man (b : Nat) : Nat := b % 2 ^ 52

/-- Sign field of an f64 bit pattern. -/
def f64Sign (b : Nat) : Nat := b / 2 ^ 63 % 2

/-- NaN test on an f64 bit pattern. -/
def isNaN64 (b : Nat) : Bool := f64Exp b == 2047 && f64Man b != 0

/-- Zero test (either sign) on an f64 bit pattern. -/
def isZero64 (b : Nat) : Bool := f64Exp b == 0 && f64Man b == 0

/-- Rust f64 PartialEq on bit patterns: NaN is unequal to everything,
plus and minus zero are equal, and every other finite or infinite value
has a unique bit pattern. -/
def rustEqF64 (a b : Nat) : Bool :=
  !isNaN64 a && !isNaN64 b && (a == b || (isZero64 a && isZero64 b))

/-- Round n / 2^s to the nearest integer, ties to even. -/
def roundNearestEven (n s : Nat) : Nat :=
  if s = 0 then n
  else
    let d := n / 2 ^ s
    let r := n % 2 ^ s
    let half := 2 ^ (s - 1)
    if half < r then d + 1
    else if r < half then d
    else if d % 2 = 1 then d + 1 else d

/-- Exact IEEE widening conversion of an f32 bit pattern to an f64 bit
pattern (the Rust cast y as f64). -/
def f32ToF64 (b : Nat) : Nat :=
  let s := b / 2 ^ 31 % 2
  let e := b / 2 ^ 23 % 2 ^ 8
  let m := b % 2 ^ 23
  if e = 255 then
    -- infinity or NaN: top exponent, mantissa shifted into place
    s * 2 ^ 63 + 2047 * 2 ^ 52 + m * 2 ^ 29
  else if e = 0 then
    if m = 0 then s * 2 ^ 63
    else
      -- subnormal f32 (value m * 2^-149) becomes a normal f64
      let k := Nat.log2 m
      s * 2 ^ 63 + (874 + k) * 2 ^ 52 + (m * 2 ^ (52 - k) - 2 ^ 52)
  else s * 2 ^ 63 + (e + 896) * 2 ^ 52 + m * 2 ^ 29

/-- Packing of a rounded magnitude into the exponent and mantissa fields
of an f32 pattern: r is the rounded significand scaled to quantum 2^q. -/
def f32Pack (q : Int) (r : Nat) : Nat :=
  if r = 0 then 0
  else if r < 2 ^ 23 then r -- subnormal f32
  else
    let r2 := if 2 ^ 24 ≤ r then 2 ^ 23 else r
    let q2 : Int := if 2 ^ 24 ≤ r then q + 1 else q
    let eb : Int := q2 + 150
    if 255 ≤ eb then 255 * 2 ^ 23 -- overflow to infinity
    else eb.toNat * 2 ^ 23 + (r2 - 2 ^ 23)

/-- IEEE round-to-nearest-even narrowing conversion of an f64 bit pattern
to an f32 bit pattern (the Rust cast x as f32). -/
def f64ToF32 (b : Nat) : Nat :=
  let s := b / 2 ^ 63 % 2
  let e := f64Exp b
  let m := f64Man b
  if e = 2047 then
    if m = 0 then s * 2 ^ 31 + 255 * 2 ^ 23
    else s * 2 ^ 31 + 255 * 2 ^ 23 + 2 ^ 22 -- canonical quiet NaN
  else
    let n := if e = 0 then m else 2 ^ 52 + m
    if n = 0 then s * 2 ^ 31
    else
      let base : Int := if e = 0 then -1074 else (e : Int) - 1075
      let p : Int := (Nat.log2 n : Int) + base
      let q : Int := max (p - 23) (-149)
      let shift : Int := base - q
      let r := if 0 ≤ shift then n * 2 ^ shift.toNat
               else roundNearestEven n (-shift).toNat
      s * 2 ^ 31 + f32Pack q r

/-! ## The lib0 Any value model and its binary codec

Embedding of src/lib0/src/any.rs. Rust strings are modelled as their
UTF-8 byte lists, buffers as byte lists, f64 numbers as 64-bit patterns,
and the HashMap of a Map value as its association list in iteration
order. Map decoding inserts entries with HashMap semantics (an existing
key is overwritten in place). -/

/-- Number variants of the Any model (enum Number in any.rs). -/
inductive AnyNumber where
  | float (bits : Nat)
  | int (v : Int)
  | bigInt (v : Int)
deriving DecidableEq, Repr

/-- JSON-like value model (enum Any in any.rs). -/
inductive AnyValue where
  | null
  | undefined
  | boolean (b : Bool)
  | number (n : AnyNumber)
  | string (s : List Nat)
  | buffer (bs : List Nat)
  | array (xs : List AnyValue)
  | map (kvs : List (List Nat × AnyValue))

/-- Writer for a length-prefixed string or buffer (lib0 write_string /
write_buf; treated as primitive I/O by the spec). -/
def writeString (s : List Nat) : List Nat := writeVarUint s.length ++ s

/-- Reader for a length-prefixed string or buffer. -/
def readString (st : List Nat) : Option (List Nat × List Nat) :=
  match readVarUint st with
  | some (n, r) => if n ≤ r.length then some (r.take n, r.drop n) else none
  | none => none

theorem readString_writeString (s rest : List Nat) :
    readString (writeString s ++ rest) = some (s, rest) := by
  unfold readString writeString
  rw [List.append_assoc, readVarUint_writeVarUint]
  have hle : s.length ≤ (s ++ rest).length := by simp
  simp only [hle, if_true, List.take_left, List.drop_left]

/-- HashMap insert on an association list: overwrite in place when the
key exists, append otherwise. -/
def insertAssoc (kvs : List (List Nat × AnyValue)) (k : List Nat) (v : AnyValue) :
    List (List Nat × AnyValue) :=
  match kvs with
  | [] => [(k, v)]
  | (k0, v0) :: rest =>
    if k0 = k then (k0, v) :: rest else (k0, v0) :: insertAssoc rest k v

mutual

/-- Binary encoder of Any values (Any::encode in any.rs): a decreasing
tag byte from 127 down to 116 followed by the payload; floats are
narrowed to f32 when the narrowing round-trips under Rust f64 equality. -/
def encodeAny : AnyValue → List Nat
  | .undefined => [127]
  | .null => [126]
  | .boolean b => [if b then 120 else 121]
  | .string s => 119 :: writeString s
  | .number (.float bits) =>
    let b32 := f64ToF32 bits
    if rustEqF64 (f32ToF64 b32) bits then 124 :: writeBytesBE 4 b32
    else 123 :: writeBytesBE 8 bits
  | .number (.int v) => 125 :: writeVarInt v
  | .number (.bigInt v) => 122 :: writeBytesBE 8 (i64ToU64 v)
  | .array xs => 117 :: (writeVarUint xs.length ++ encodeAnyList xs)
  | .map kvs => 118 :: (writeVarUint kvs.length ++ encodeAnyMap kvs)
  | .buffer bs => 116 :: (writeVarUint bs.length ++ bs)

/-- Encoder for the elements of an Array value, in order. -/
def encodeAnyList : List AnyValue → List Nat
  | [] => []
  | x :: xs => encodeAny x ++ encodeAnyList xs

/-- Encoder for the entries of a Map value, in iteration order. -/
def encodeAnyMap : List (List Nat × AnyValue) → List Nat
  | [] => []
  | (k, v) :: kvs => writeString k ++ (encodeAny v ++ encodeAnyMap kvs)

end

mutual

/-- Binary decoder of Any values (Any::decode in any.rs), with explicit
fuel bounding the recursion depth over nested arrays and maps. -/
def decodeAny : Nat → List Nat → Option (AnyValue × List Nat)
  | 0, _ => none
  | _ + 1, [] => none
  | fuel + 1, b :: st =>
    if b = 127 then some (.undefined, st)
    else if b = 126 then some (.null, st)
    else if b = 125 then
      match readVarInt st with
      | some (v, r) => some (.number (.int v), r)
      | none => none
    else if b = 124 then
      match readBytesBE 4 st with
      | some (n, r) => some (.number (.float (f32ToF64 n)), r)
      | none => none
    else if b = 123 then
      match readBytesBE 8 st with
      | some (n, r) => some (.number (.float n), r)
      | none => none
    else if b = 122 then
      match readBytesBE 8 st with
      | some (n, r) => some (.number (.bigInt (u64ToI64 n)), r)
      | none => none
    else if b = 121 then some (.boolean false, st)
    else if b = 120 then some (.boolean true, st)
    else if b = 119 then
      match readString st with
      | some (s, r) => some (.string s, r)
      | none => none
    else if b = 118 then
      match readVarUint st with
      | some (n, r) =>
        match decodeAnyMap fuel n r with
        | some (kvs, r2) => some (.map (kvs.foldl (fun acc kv => insertAssoc acc kv.1 kv.2) []), r2)
        | none => none
      | none => none
    else if b = 117 then
      match readVarUint st with
      | some (n, r) =>
        match decodeAnyList fuel n r with
        | some (xs, r2) => some (.array xs, r2)
        | none => none
      | none => none
    else if b = 116 then
      match readString st with
      | some (bs, r) => some (.buffer bs, r)
      | none => none
    else none
termination_by fuel st => (fuel, 0)

/-- Decoder for n consecutive Any values (the Array payload loop). -/
def decodeAnyList : Nat → Nat → List Nat → Option (List AnyValue × List Nat)
  | _, 0, st => some ([], st)
  | fuel, n + 1, st =>
    match decodeAny fuel st with
    | some (x, r) =>
      match decodeAnyList fuel n r with
      | some (xs, r2) => some (x :: xs, r2)
      | none => none
    | none => none
termination_by fuel n st => (fuel, n + 1)

/-- Decoder for n consecutive key-value pairs (the Map payload loop),
collected in read order. -/
def decodeAnyMap : Nat → Nat → List Nat → Option (List (List Nat × AnyValue) × List Nat)
  | _, 0, st => some ([], st)
  | fuel, n + 1, st =>
    match readString st with
    | some (k, r) =>
      match decodeAny fuel r with
      | some (v, r2) =>
        match decodeAnyMap fuel n r2 with
        | some (kvs, r3) => some ((k, v) :: kvs, r3)
        | none => none
      | none => none
    | none => none
termination_by fuel n st => (fuel, n + 1)

end

mutual

/-- Number of Any nodes in a value, used as a fuel bound. -/
def sizeAny : AnyValue → Nat
  | .array xs => 1 + sizeAnyList xs
  | .map kvs => 1 + sizeAnyMap kvs
  | _ => 1

/-- Node count of a list of values. -/
def sizeAnyList : List AnyValue → Nat
  | [] => 0
  | x :: xs => sizeAny x + sizeAnyList xs

/-- Node count of the values of a map. -/
def sizeAnyMap : List (List Nat × AnyValue) → Nat
  | [] => 0
  | (_, v) :: kvs => sizeAny v + sizeAnyMap kvs

end

/-- Absence of a key from a list of keys. -/
def keyAbsent (k : List Nat) : List (List Nat) → Bool
  | [] => true
  | k0 :: ks => !(k0 == k) && keyAbsent k ks

theorem keyAbsent_iff (k : List Nat) (ks : List (List Nat)) :
    keyAbsent k ks = true ↔ ¬ k ∈ ks := by
  induction ks with
  | nil => simp [keyAbsent]
  | cons k0 ks ih =>
    simp only [keyAbsent, Bool.and_eq_true, Bool.not_eq_true', beq_eq_false_iff_ne,
      ne_eq, ih, List.mem_cons]
    constructor
    · rintro ⟨h1, h2⟩ (he | hm)
      · exact h1 he.symm
      · exact h2 hm
    · intro h
      exact ⟨fun he => h (Or.inl he.symm), fun hm => h (Or.inr hm)⟩

/-- Pairwise distinctness of the keys of a map, as a HashMap always has. -/
def distinctKeys : List (List Nat) → Bool
  | [] => true
  | k :: ks => keyAbsent k ks && distinctKeys ks

mutual

/-- Machine-representation validity of an Any value: float and bigint
payloads fit their 64-bit machine types and map keys are distinct, all of
which hold for every value a Rust program can construct. -/
def wfAny : AnyValue → Bool
  | .number (.float bits) => decide (bits < 2 ^ 64)
  | .number (.bigInt v) => decide (-(2 ^ 63) ≤ v) && decide (v < 2 ^ 63)
  | .array xs => wfAnyList xs
  | .map kvs => distinctKeys (kvs.map Prod.fst) && wfAnyMap kvs
  | _ => true

/-- Validity of every element of a list of values. -/
def wfAnyList : List AnyValue → Bool
  | [] => true
  | x :: xs => wfAny x && wfAnyList xs

/-- Validity of every value of a map. -/
def wfAnyMap : List (List Nat × AnyValue) → Bool
  | [] => true
  | (_, v) :: kvs => wfAny v && wfAnyMap kvs

end

mutual

/-- The no-NaN condition of the round-trip claim: no float at any depth
is a NaN bit pattern. -/
def noNaNAny : AnyValue → Bool
  | .number (.float bits) => !isNaN64 bits
  | .array xs => noNaNAnyList xs
  | .map kvs => noNaNAnyMap kvs
  | _ => true

/-- No-NaN condition for a list of values. -/
def noNaNAnyList : List AnyValue → Bool
  | [] => true
  | x :: xs => noNaNAny x && noNaNAnyList xs

/-- No-NaN condition for the values of a map. -/
def noNaNAnyMap : List (List Nat × AnyValue) → Bool
  | [] => true
  | (_, v) :: kvs => noNaNAny v && noNaNAnyMap kvs

end

theorem sizeAny_pos (v : AnyValue) : 1 ≤ sizeAny v := by
  cases v <;> simp [sizeAny] <;> omega

theorem insertAssoc_of_not_mem (acc : List (List Nat × AnyValue)) (k : List Nat)
    (v : AnyValue) (h : ¬ k ∈ acc.map Prod.fst) :
    insertAssoc acc k v = acc ++ [(k, v)] := by
  induction acc with
  | nil => rfl
  | cons kv rest ih =>
    obtain ⟨k0, v0⟩ := kv
    simp only [List.map_cons, List.mem_cons] at h
    push_neg at h
    simp only [insertAssoc]
    rw [if_neg (fun he => h.1 he.symm), ih h.2]
    rfl

theorem foldl_insertAssoc (kvs acc : List (List Nat × AnyValue))
    (hd : distinctKeys (kvs.map Prod.fst) = true)
    (hdisj : ∀ k, k ∈ kvs.map Prod.fst → ¬ k ∈ acc.map Prod.fst) :
    kvs.foldl (fun a kv => insertAssoc a kv.1 kv.2) acc = acc ++ kvs := by
  induction kvs generalizing acc with
  | nil => simp
  | cons kv rest ih =>
    obtain ⟨k, v⟩ := kv
    simp only [List.map_cons, distinctKeys, Bool.and_eq_true] at hd
    simp only [List.foldl_cons]
    rw [insertAssoc_of_not_mem acc k v (hdisj k (by simp))]
    have hdisj2 : ∀ k2, k2 ∈ rest.map Prod.fst → ¬ k2 ∈ (acc ++ [(k, v)]).map Prod.fst := by
      intro k2 hk2
      simp only [List.map_append, List.mem_append, List.map_cons, List.map_nil]
      rintro (hin | hin)
      · exact hdisj k2 (by simp [hk2]) hin
      · simp only [List.mem_singleton] at hin
        subst hin
        exact (keyAbsent_iff k2 (rest.map Prod.fst)).mp hd.1 hk2
    rw [ih (acc ++ [(k, v)]) hd.2 hdisj2]
    simp

theorem f32Pack_lt (q : Int) (r : Nat) : f32Pack q r < 2 ^ 31 := by
  unfold f32Pack
  dsimp only
  split_ifs <;> omega

theorem f64ToF32_lt (b : Nat) : f64ToF32 b < 2 ^ 32 := by
  have haux : ∀ (s : Nat) (q : Int) (r : Nat), s ≤ 1 → s * 2 ^ 31 + f32Pack q r < 2 ^ 32 := by
    intro s q r hs
    have := f32Pack_lt q r
    omega
  unfold f64ToF32
  have hs : b / 2 ^ 63 % 2 ≤ 1 := by omega
  dsimp only
  split_ifs <;> first | omega | exact haux _ _ _ hs

theorem f64_roundtrip_of_rustEq (bits : Nat) (hlt : bits < 2 ^ 64)
    (h : rustEqF64 (f32ToF64 (f64ToF32 bits)) bits = true) :
    f32ToF64 (f64ToF32 bits) = bits := by
  unfold rustEqF64 at h
  simp only [Bool.and_eq_true, Bool.or_eq_true, beq_iff_eq] at h
  obtain ⟨⟨hn1, hn2⟩, heq | ⟨hz1, hz2⟩⟩ := h
  · exact heq
  · have hb : bits = 0 ∨ bits = 2 ^ 63 := by
      unfold isZero64 f64Exp f64Man at hz2
      simp only [Bool.and_eq_true, beq_iff_eq] at hz2
      omega
    rcases hb with rfl | rfl
    · decide
    · decide

theorem encodeAny_float (bits : Nat) :
    encodeAny (.number (.float bits)) =
      if rustEqF64 (f32ToF64 (f64ToF32 bits)) bits then 124 :: writeBytesBE 4 (f64ToF32 bits)
      else 123 :: writeBytesBE 8 bits := rfl

theorem decodeAnyList_encodeAnyList (fuel : Nat)
    (hP : ∀ v rest, sizeAny v ≤ fuel → wfAny v = true →
      decodeAny fuel (encodeAny v ++ rest) = some (v, rest)) :
    ∀ xs rest, sizeAnyList xs ≤ fuel → wfAnyList xs = true →
      decodeAnyList fuel xs.length (encodeAnyList xs ++ rest) = some (xs, rest) := by
  intro xs
  induction xs with
  | nil =>
    intro rest _ _
    simp [encodeAnyList, decodeAnyList]
  | cons x xs ih =>
    intro rest hs hw
    simp only [sizeAnyList] at hs
    simp only [wfAnyList, Bool.and_eq_true] at hw
    have hpos := sizeAny_pos x
    have hx := hP x (encodeAnyList xs ++ rest) (by omega) hw.1
    have hxs := ih rest (by omega) hw.2
    simp [encodeAnyList, decodeAnyList, List.append_assoc, hx, hxs]

theorem decodeAnyMap_encodeAnyMap (fuel : Nat)
    (hP : ∀ v rest, sizeAny v ≤ fuel → wfAny v = true →
      decodeAny fuel (encodeAny v ++ rest) = some (v, rest)) :
    ∀ kvs rest, sizeAnyMap kvs ≤ fuel → wfAnyMap kvs = true →
      decodeAnyMap fuel kvs.length (encodeAnyMap kvs ++ rest) = some (kvs, rest) := by
  intro kvs
  induction kvs with
  | nil =>
    intro rest _ _
    simp [encodeAnyMap, decodeAnyMap]
  | cons kv kvs ih =>
    obtain ⟨k, v⟩ := kv
    intro rest hs hw
    simp only [sizeAnyMap] at hs
    simp only [wfAnyMap, Bool.and_eq_true] at hw
    have hpos := sizeAny_pos v
    have hk := readString_writeString k (encodeAny v ++ (encodeAnyMap kvs ++ rest))
    have hv := hP v (encodeAnyMap kvs ++ rest) (by omega) hw.1
    have hkvs := ih rest (by omega) hw.2
    simp [encodeAnyMap, decodeAnyMap, List.append_assoc, hk, hv, hkvs]

theorem anyRoundAux : ∀ fuel v rest, sizeAny v ≤ fuel → wfAny v = true →
    decodeAny fuel (encodeAny v ++ rest) = some (v, rest) := by
  intro fuel
  induction fuel using Nat.strong_induction_on with
  | _ fuel ih =>
    intro v rest hs hw
    obtain ⟨f, rfl⟩ : ∃ f, fuel = f + 1 := ⟨fuel - 1, by have := sizeAny_pos v; omega⟩
    cases v with
    | null => simp [encodeAny, decodeAny]
    | undefined => simp [encodeAny, decodeAny]
    | boolean b => cases b <;> simp [encodeAny, decodeAny]
    | string s =>
      have h := readString_writeString s rest
      simp [encodeAny, decodeAny, h]
    | buffer bs =>
      have h := readString_writeString bs rest
      simp only [writeString] at h
      rw [List.append_assoc] at h
      simp [encodeAny, decodeAny, List.append_assoc, h]
    | number n =>
      cases n with
      | int v => simp [encodeAny, decodeAny, readVarInt_writeVarInt]
      | bigInt v =>
        have hr : -(2 ^ 63) ≤ v ∧ v < 2 ^ 63 := by
          simp only [wfAny, Bool.and_eq_true, decide_eq_true_eq] at hw
          exact hw
        have h1 := readBytesBE_writeBytesBE 8 (i64ToU64 v) rest
        have h2 : i64ToU64 v % 2 ^ (8 * 8) = i64ToU64 v :=
          Nat.mod_eq_of_lt (by have := i64ToU64_lt v; omega)
        rw [h2] at h1
        have h3 := u64ToI64_i64ToU64 v hr.1 hr.2
        simp [encodeAny, decodeAny, h1, h3]
      | float bits =>
        have hlt : bits < 2 ^ 64 := by
          simpa [wfAny] using hw
        by_cases hg : rustEqF64 (f32ToF64 (f64ToF32 bits)) bits = true
        · have hround := f64_roundtrip_of_rustEq bits hlt hg
          have hb := f64ToF32_lt bits
          have h1 := readBytesBE_writeBytesBE 4 (f64ToF32 bits) rest
          have h2 : f64ToF32 bits % 2 ^ (8 * 4) = f64ToF32 bits :=
            Nat.mod_eq_of_lt (by omega)
          rw [h2] at h1
          rw [encodeAny_float, if_pos hg]
          simp [decodeAny, h1, hround]
        · have h1 := readBytesBE_writeBytesBE 8 bits rest
          have h2 : bits % 2 ^ (8 * 8) = bits := Nat.mod_eq_of_lt (by omega)
          rw [h2] at h1
          rw [encodeAny_float, if_neg hg]
          simp [decodeAny, h1]
    | array xs =>
      simp only [sizeAny] at hs
      simp only [wfAny] at hw
      have hlist := decodeAnyList_encodeAnyList f
        (fun v r h1 h2 => ih f (by omega) v r h1 h2) xs rest (by omega) hw
      simp [encodeAny, decodeAny, List.append_assoc, readVarUint_writeVarUint, hlist]
    | map kvs =>
      simp only [sizeAny] at hs
      simp only [wfAny, Bool.and_eq_true] at hw
      have hmap := decodeAnyMap_encodeAnyMap f
        (fun v r h1 h2 => ih f (by omega) v r h1 h2) kvs rest (by omega) hw.2
      have hfold := foldl_insertAssoc kvs [] hw.1 (by simp)
      simp [encodeAny, decodeAny, List.append_assoc, readVarUint_writeVarUint, hmap, hfold]

theorem sizeAny_le_encode : ∀ v : AnyValue, sizeAny v ≤ (encodeAny v).length := by
  suffices h : ∀ n v, sizeAny v ≤ n → sizeAny v ≤ (encodeAny v).length by
    intro v
    exact h (sizeAny v) v le_rfl
  intro n
  induction n using Nat.strong_induction_on with
  | _ n ih =>
    intro v hn
    cases v with
    | null => simp [sizeAny, encodeAny]
    | undefined => simp [sizeAny, encodeAny]
    | boolean b => simp [sizeAny, encodeAny]
    | string s => simp [sizeAny, encodeAny]
    | buffer bs => simp [sizeAny, encodeAny]
    | number m =>
      cases m with
      | float bits =>
        rw [encodeAny_float]
        split_ifs <;> simp [sizeAny]
      | int v => simp [sizeAny, encodeAny]
      | bigInt v => simp [sizeAny, encodeAny]
    | array xs =>
      simp only [sizeAny] at hn ⊢
      simp only [encodeAny, List.length_cons, List.length_append]
      have hlist : ∀ ys : List AnyValue, sizeAnyList ys ≤ sizeAnyList xs →
          sizeAnyList ys ≤ (encodeAnyList ys).length := by
        intro ys
        induction ys with
        | nil => simp [sizeAnyList, encodeAnyList]
        | cons y ys ihy =>
          intro hle
          simp only [sizeAnyList] at hle ⊢
          simp only [encodeAnyList, List.length_append]
          have hy : sizeAny y ≤ (encodeAny y).length := by
            have hpos := sizeAny_pos y
            exact ih (sizeAny y) (by omega) y le_rfl
          have hys := ihy (by have := sizeAny_pos y; omega)
          omega
      have := hlist xs le_rfl
      omega
    | map kvs =>
      simp only [sizeAny] at hn ⊢
      simp only [encodeAny, List.length_cons, List.length_append]
      have hmap : ∀ ys : List (List Nat × AnyValue), sizeAnyMap ys ≤ sizeAnyMap kvs →
          sizeAnyMap ys ≤ (encodeAnyMap ys).length := by
        intro ys
        induction ys with
        | nil => simp [sizeAnyMap, encodeAnyMap]
        | cons kv ys ihy =>
          obtain ⟨k, y⟩ := kv
          intro hle
          simp only [sizeAnyMap] at hle ⊢
          simp only [encodeAnyMap, List.length_append]
          have hy : sizeAny y ≤ (encodeAny y).length := by
            have hpos := sizeAny_pos y
            exact ih (sizeAny y) (by omega) y le_rfl
          have hys := ihy (by have := sizeAny_pos y; omega)
          omega
      have := hmap kvs le_rfl
      omega

/-- Top-level Any decoder over a byte stream; the fuel is the length of
the stream, which the fuel bound shows is always sufficient. -/
def decodeAnyBytes (st : List Nat) : Option (AnyValue × List Nat) :=
  decodeAny st.length st

/-- C10: for every Any value v that contains no NaN floating-point
number at any depth (and is machine-representable: float bit patterns
and big integers fit 64 bits, map keys are distinct, as every Rust value
satisfies), decoding the bytes produced by Any::encode succeeds and
returns a value structurally equal to v, including the boolean tags
120/121 and the float32-versus-float64 width selection. -/
theorem C10_any_encode_decode_roundtrip (v : AnyValue)
    (hwf : wfAny v = true) (hnn : noNaNAny v = true) :
    decodeAnyBytes (encodeAny v) = some (v, []) := by
  unfold decodeAnyBytes
  have h1 : sizeAny v ≤ (encodeAny v).length := sizeAny_le_encode v
  have h2 := anyRoundAux (encodeAny v).length v [] h1 hwf
  simpa using h2

/-- Concrete value exercising booleans, integers, strings, the f32 width
selection (1.5 narrows exactly) and a nested map. -/
def c10Example : AnyValue :=
  .array [.boolean true, .number (.int 5), .string [104, 105],
    .number (.float 4609434218613702656), .map [([107], .null)]]

/-- Witness for C10 at a concrete value. -/
theorem C10_any_encode_decode_roundtrip_witness :
    wfAny c10Example = true ∧ noNaNAny c10Example = true ∧
      decodeAnyBytes (encodeAny c10Example) = some (c10Example, []) :=
  ⟨by decide, by decide,
    C10_any_encode_decode_roundtrip c10Example (by decide) (by decide)⟩

/-! ## Identifiers, blocks and the block store

Embedding of src/yrs/src/block_store.rs. The HashMap of clients is
modelled as an association list in iteration order; BlockPtr in this
version of the code is just a wrapper around an ID. The Item content
codec lives in the missing block.rs, so it is modelled from the spec
(section 4.3): content kinds Deleted, Binary, String and Any with their
var-length payloads; the other kinds have no encoding given by the spec
and make the decoder fail. -/

/-- Block identifier: (client, clock). -/
structure ID where
  client : Nat
  clock : Nat
deriving DecidableEq, Repr

/-- Type pointer of a decoded block: either a named root or a block
pointer obtained from an ID (TypePtr in the early types module). -/
inductive TypePtr where
  | named (name : List Nat)
  | idPtr (id : ID)
deriving DecidableEq, Repr

/-- Modelled from the spec (section 3, section 4.3): the Item content
variants whose byte encoding the spec defines. Deleted carries a length,
Binary and String carry var-length byte payloads, Any carries a counted
sequence of Any values. -/
inductive ItemContent where
  | deletedLen (len : Nat)
  | binary (bs : List Nat)
  | stringContent (s : List Nat)
  | anyContent (vs : List AnyValue)

/-- Content length in elements (spec section 3: Deleted counts its
length, Binary is a single element, String counts its units, Any counts
its values). -/
def ItemContent.len : ItemContent → Nat
  | .deletedLen n => n
  | .binary _ => 1
  | .stringContent s => s.length
  | .anyContent vs => vs.length

/-- Item block as decoded by BlockStore::from: runtime sibling pointers
start out empty, the deleted flag false. -/
structure Item where
  id : ID
  left : Option ID
  right : Option ID
  origin : Option ID
  rightOrigin : Option ID
  parent : TypePtr
  parentSub : Option (List Nat)
  content : ItemContent
  deleted : Bool

/-- Block variants (enum Block in block.rs): Item, GC, Skip. -/
inductive Block where
  | item (it : Item)
  | gc (id : ID) (len : Nat)
  | skip (id : ID) (len : Nat)

/-- Identifier of a block. -/
def Block.id : Block → ID
  | .item it => it.id
  | .gc i _ => i
  | .skip i _ => i

/-- Length of a block in clock units. -/
def Block.len : Block → Nat
  | .item it => it.content.len
  | .gc _ n => n
  | .skip _ n => n

/-- Per-client block sequence with its count of integrated blocks
(struct ClientBlockList). -/
structure ClientBlockList where
  list : List Block
  integratedLen : Nat

/-- ClientBlockList::get_state: 0 when integrated_len is 0, otherwise
clock plus length of the block at index integrated_len - 1. The Rust
indexing panics when integrated_len exceeds the list length; the model
is used only under the hypothesis that it does not. -/
def ClientBlockList.getState (l : ClientBlockList) : Nat :=
  if l.integratedLen = 0 then 0
  else
    let b := l.list.getD (l.integratedLen - 1) (Block.gc ⟨0, 0⟩ 0)
    b.id.clock + b.len

/-- Block store: client id to block list, in iteration order. -/
structure BlockStore where
  clients : List (Nat × ClientBlockList)

/-- Lookup of a client entry (HashMap::get). -/
def storeLookup (clients : List (Nat × ClientBlockList)) (client : Nat) :
    Option ClientBlockList :=
  match clients with
  | [] => none
  | (c, l) :: rest => if c = client then some l else storeLookup rest client

/-- BlockStore::get_state: 0 for an unknown client, otherwise the client
list's get_state. -/
def BlockStore.getState (s : BlockStore) (client : Nat) : Nat :=
  match storeLookup s.clients client with
  | some l => l.getState
  | none => 0

/-! ### State vectors (struct StateVector) -/

/-- State vector: client to next clock, in iteration order. -/
structure StateVector where
  entries : List (Nat × Nat)
deriving DecidableEq, Repr

/-- HashMap::insert on the entry list: overwrite in place or append. -/
def svInsert (entries : List (Nat × Nat)) (client clock : Nat) : List (Nat × Nat) :=
  match entries with
  | [] => [(client, clock)]
  | (c, k) :: rest =>
    if c = client then (c, clock) :: rest else (c, k) :: svInsert rest client clock

/-- StateVector::from: one entry per client of the store, carrying the
client list's get_state. -/
def StateVector.ofStore (s : BlockStore) : StateVector :=
  ⟨s.clients.foldl (fun acc c => svInsert acc c.1 c.2.getState) []⟩

/-- Client and clock pairs of a state vector, each var-uint encoded. -/
def svPairs : List (Nat × Nat) → List Nat
  | [] => []
  | (c, k) :: rest => writeVarUint c ++ writeVarUint k ++ svPairs rest

/-- StateVector::encode: var_uint(num_clients) followed by a var-uint
(client, clock) pair per client. -/
def StateVector.encode (sv : StateVector) : List Nat :=
  writeVarUint sv.entries.length ++ svPairs sv.entries

/-- Reader of a counted run of (client, clock) pairs. -/
def readSvPairs : Nat → List Nat → Option (List (Nat × Nat) × List Nat)
  | 0, st => some ([], st)
  | n + 1, st =>
    match readVarUint st with
    | some (c, r) =>
      match readVarUint r with
      | some (k, r2) =>
        match readSvPairs n r2 with
        | some (rest, r3) => some ((c, k) :: rest, r3)
        | none => none
      | none => none
    | none => none

/-- StateVector::decode: read the entry count, then that many pairs,
inserting each into the map. -/
def StateVector.decode (st : List Nat) : Option StateVector :=
  match readVarUint st with
  | some (len, r) =>
    match readSvPairs len r with
    | some (pairs, _) =>
      some ⟨pairs.foldl (fun acc p => svInsert acc p.1 p.2) []⟩
    | none => none
  | none => none

/-- BlockStore::encode_state_vector: writes only the (client, clock)
pairs of the store's state vector, with no leading entry count. -/
def BlockStore.encodeStateVector (s : BlockStore) : List Nat :=
  svPairs (StateVector.ofStore s).entries

/-! ### Binary search by clock (ClientBlockList::find_pivot)

The Rust loop uses usize and u32 arithmetic; possible panics (index out
of bounds, subtraction underflow, division by zero) are modelled as
error outcomes, and the while loop carries explicit fuel whose
exhaustion is also an error outcome. -/

/-- Body of the find_pivot while loop: left and right bounds, the probe
index, all over the same list and target clock. -/
def findPivotLoop (l : List Block) (clock : Nat) :
    Nat → Nat → Nat → Nat → Except String (Option Nat)
  | 0, _, _, _ => .error "loop fuel exhausted"
  | fuel + 1, left, right, midIdx =>
    if left ≤ right then
      match l.get? midIdx with
      | none => .error "index out of bounds"
      | some mid =>
        let midClock := mid.id.clock
        if midClock ≤ clock then
          if clock < midClock + mid.len then .ok (some midIdx)
          else findPivotLoop l clock fuel (midIdx + 1) right ((midIdx + 1 + right) / 2)
        else
          if midIdx = 0 then .error "usize underflow"
          else findPivotLoop l clock fuel left (midIdx - 1) ((left + (midIdx - 1)) / 2)
    else .ok none

/-- ClientBlockList::find_pivot: probe the last block first, then run a
pivoted binary search. -/
def ClientBlockList.findPivot (cbl : ClientBlockList) (clock : Nat) :
    Except String (Option Nat) :=
  if cbl.list.isEmpty then .error "usize underflow" -- self.list.len() - 1
  else
    let right := cbl.list.length - 1
    match cbl.list.get? right with
    | none => .error "index out of bounds"
    | some mid =>
      let midClock := mid.id.clock
      if midClock = clock then .ok (some right)
      else if midClock + mid.len = 0 then .error "u32 underflow" -- mid_clock + len - 1
      else
        let d := midClock + mid.len - 1
        if d = 0 then .error "division by zero"
        else
          let midIdx := clock / d * right
          findPivotLoop cbl.list clock (cbl.list.length + 1) 0 right midIdx

/-- Total length in clock units of a run of blocks. -/
def sumLens : List Block → Nat
  | [] => 0
  | b :: rest => b.len + sumLens rest

/-- Clock at which block i of the list starts, under contiguity. -/
def blockStart (l : List Block) (i : Nat) : Nat := sumLens (l.take i)

/-- Contiguity of a block run from a starting clock: each block starts
where the previous one ended (invariant I1 of the spec). -/
def contigFrom : Nat → List Block → Bool
  | _, [] => true
  | c, b :: rest => b.id.clock == c && contigFrom (c + b.len) rest

theorem blockStart_cons (b : Block) (rest : List Block) (i : Nat) :
    blockStart (b :: rest) (i + 1) = b.len + blockStart rest i := by
  simp [blockStart, List.take_succ_cons, sumLens]

theorem blockStart_succ (l : List Block) (i : Nat) (h : i < l.length) :
    blockStart l (i + 1) = blockStart l i + (l.get ⟨i, h⟩).len := by
  induction l generalizing i with
  | nil => simp at h
  | cons b rest ih =>
    cases i with
    | zero => simp [blockStart, sumLens, List.take_succ_cons]
    | succ i =>
      have hi : i < rest.length := by simpa using Nat.lt_of_succ_lt_succ h
      have := ih i hi
      simp only [blockStart_cons, List.get_cons_succ]
      omega

theorem contig_get (l : List Block) : ∀ (c : Nat), contigFrom c l = true →
    ∀ (i : Nat) (h : i < l.length), (l.get ⟨i, h⟩).id.clock = c + blockStart l i := by
  induction l with
  | nil =>
    intro c _ i h
    simp at h
  | cons b rest ih =>
    intro c hc i h
    simp only [contigFrom, Bool.and_eq_true, beq_iff_eq] at hc
    cases i with
    | zero =>
      simpa [blockStart] using hc.1
    | succ i =>
      have hi : i < rest.length := by simpa using Nat.lt_of_succ_lt_succ h
      have := ih (c + b.len) hc.2 i hi
      simp only [List.get_cons_succ, blockStart_cons]
      omega

theorem blockStart_le_succ (l : List Block) (i : Nat) :
    blockStart l i ≤ blockStart l (i + 1) := by
  by_cases h : i < l.length
  · rw [blockStart_succ l i h]
    omega
  · push_neg at h
    unfold blockStart
    rw [List.take_all_of_le h, List.take_all_of_le (by omega)]

theorem blockStart_mono (l : List Block) : ∀ i j, i ≤ j →
    blockStart l i ≤ blockStart l j := by
  intro i j h
  induction j with
  | zero =>
    have : i = 0 := by omega
    simp [this]
  | succ j ihj =>
    by_cases he : i = j + 1
    · simp [he]
    · exact le_trans (ihj (by omega)) (blockStart_le_succ l j)

theorem exists_bracket (S : Nat → Nat) (n clock : Nat) (h0 : S 0 = 0)
    (hc : clock < S n) : ∃ i, i < n ∧ S i ≤ clock ∧ clock < S (i + 1) := by
  induction n with
  | zero => omega
  | succ n ih =>
    by_cases h : S n ≤ clock
    · exact ⟨n, Nat.lt_succ_self n, h, hc⟩
    · push_neg at h
      obtain ⟨i, h1, h2, h3⟩ := ih h
      exact ⟨i, Nat.lt_succ_of_lt h1, h2, h3⟩

theorem findPivotLoop_ok (l : List Block) (clock : Nat)
    (hcl : ∀ (i : Nat) (h : i < l.length), (l.get ⟨i, h⟩).id.clock = blockStart l i) :
    ∀ fuel left right midIdx i0,
      i0 < l.length →
      blockStart l i0 ≤ clock →
      clock < blockStart l (i0 + 1) →
      left ≤ midIdx → midIdx ≤ right → right < l.length →
      left ≤ i0 → i0 ≤ right →
      right < left + fuel →
      ∃ i, ∃ h : i < l.length,
        findPivotLoop l clock fuel left right midIdx = .ok (some i) ∧
        blockStart l i ≤ clock ∧ clock < blockStart l (i + 1) := by
  intro fuel
  induction fuel with
  | zero =>
    intro left right midIdx i0 _ _ _ _ _ _ h4 h5 hfuel
    omega
  | succ fuel ih =>
    intro left right midIdx i0 hi0 hbr1 hbr2 h1 h2 h3 h4 h5 hfuel
    have hlr : left ≤ right := le_trans h4 h5
    have hmidlt : midIdx < l.length := lt_of_le_of_lt h2 h3
    have hstart := hcl midIdx hmidlt
    rw [findPivotLoop, if_pos hlr, List.get?_eq_get hmidlt]
    dsimp only
    by_cases hA : (l.get ⟨midIdx, hmidlt⟩).id.clock ≤ clock
    · rw [if_pos hA]
      by_cases hB : clock < (l.get ⟨midIdx, hmidlt⟩).id.clock + (l.get ⟨midIdx, hmidlt⟩).len
      · rw [if_pos hB]
        refine ⟨midIdx, hmidlt, rfl, by omega, ?_⟩
        rw [blockStart_succ l midIdx hmidlt]
        omega
      · rw [if_neg hB]
        have hsucc := blockStart_succ l midIdx hmidlt
        have hgt : midIdx < i0 := by
          by_contra hle
          push_neg at hle
          have hmono : blockStart l (i0 + 1) ≤ blockStart l (midIdx + 1) :=
            blockStart_mono l _ _ (by omega)
          omega
        have hmr : midIdx + 1 ≤ right := by omega
        exact ih (midIdx + 1) right ((midIdx + 1 + right) / 2) i0 hi0 hbr1 hbr2
          (by omega) (by omega) h3 (by omega) h5 (by omega)
    · rw [if_neg hA]
      have hne0 : ¬ midIdx = 0 := by
        intro h0
        subst h0
        have : blockStart l 0 = 0 := rfl
        omega
      rw [if_neg hne0]
      have hlt : i0 < midIdx := by
        by_contra hle
        push_neg at hle
        have hmono : blockStart l midIdx ≤ blockStart l i0 := blockStart_mono l _ _ hle
        omega
      exact ih left (midIdx - 1) ((left + (midIdx - 1)) / 2) i0 hi0 hbr1 hbr2
        (by omega) (by omega) (by omega) h4 (by omega) (by omega)

theorem getState_eq_total (cbl : ClientBlockList) (hne : cbl.list ≠ [])
    (hint : cbl.integratedLen = cbl.list.length)
    (hc : contigFrom 0 cbl.list = true) :
    cbl.getState = blockStart cbl.list cbl.list.length := by
  unfold ClientBlockList.getState
  have hlen0 : cbl.list.length ≠ 0 := by
    intro h
    exact hne (List.length_eq_zero.mp h)
  rw [hint, if_neg hlen0]
  have hlt : cbl.list.length - 1 < cbl.list.length := by omega
  have hgd : cbl.list.getD (cbl.list.length - 1) (Block.gc ⟨0, 0⟩ 0)
      = cbl.list.get ⟨cbl.list.length - 1, hlt⟩ := by
    rw [List.getD_eq_getElem?_getD, List.getElem?_eq_getElem hlt]
    rfl
  rw [hgd]
  have hck := contig_get cbl.list 0 hc (cbl.list.length - 1) hlt
  have hsucc := blockStart_succ cbl.list (cbl.list.length - 1) hlt
  have hn : cbl.list.length - 1 + 1 = cbl.list.length := by omega
  rw [hn] at hsucc
  dsimp only
  omega

/-- C9: for every non-empty fully-integrated ClientBlockList whose
blocks are contiguous from clock 0 (hence sorted) with positive lengths,
and every clock strictly below get_state(), find_pivot terminates
without a panic (no out-of-bounds index, no division by zero, no integer
underflow, fuel never exhausted) and returns Some(i) with
list[i].id.clock <= clock < list[i].id.clock + list[i].len(). -/
theorem C9_find_pivot_ok (cbl : ClientBlockList) (clock : Nat)
    (hne : cbl.list ≠ [])
    (hint : cbl.integratedLen = cbl.list.length)
    (hc : contigFrom 0 cbl.list = true)
    (hlen : ∀ b ∈ cbl.list, 1 ≤ b.len)
    (hclock : clock < cbl.getState) :
    ∃ i, ∃ h : i < cbl.list.length,
      cbl.findPivot clock = .ok (some i) ∧
      (cbl.list.get ⟨i, h⟩).id.clock ≤ clock ∧
      clock < (cbl.list.get ⟨i, h⟩).id.clock + (cbl.list.get ⟨i, h⟩).len := by
  have htot := getState_eq_total cbl hne hint hc
  have hcl : ∀ (i : Nat) (h : i < cbl.list.length),
      (cbl.list.get ⟨i, h⟩).id.clock = blockStart cbl.list i := by
    intro i h
    have := contig_get cbl.list 0 hc i h
    omega
  -- restate the conclusion bracket through blockStart
  have hconv : ∀ i (h : i < cbl.list.length),
      blockStart cbl.list i ≤ clock → clock < blockStart cbl.list (i + 1) →
      (cbl.list.get ⟨i, h⟩).id.clock ≤ clock ∧
        clock < (cbl.list.get ⟨i, h⟩).id.clock + (cbl.list.get ⟨i, h⟩).len := by
    intro i h hb1 hb2
    have hsucc := blockStart_succ cbl.list i h
    have := hcl i h
    omega
  unfold ClientBlockList.findPivot
  have hlenpos : 0 < cbl.list.length := List.length_pos.mpr hne
  rw [if_neg (by simpa [List.isEmpty_iff] using hne)]
  dsimp only
  have hlt : cbl.list.length - 1 < cbl.list.length := by omega
  rw [List.get?_eq_get hlt]
  dsimp only
  have hlast := hcl (cbl.list.length - 1) hlt
  have hlastsucc := blockStart_succ cbl.list (cbl.list.length - 1) hlt
  have hn : cbl.list.length - 1 + 1 = cbl.list.length := by omega
  rw [hn] at hlastsucc
  by_cases heq : (cbl.list.get ⟨cbl.list.length - 1, hlt⟩).id.clock = clock
  · rw [if_pos heq]
    refine ⟨cbl.list.length - 1, hlt, rfl, by omega, ?_⟩
    have hmem : cbl.list.get ⟨cbl.list.length - 1, hlt⟩ ∈ cbl.list := List.get_mem _ _ _
    have := hlen _ hmem
    omega
  · rw [if_neg heq]
    have hmem : cbl.list.get ⟨cbl.list.length - 1, hlt⟩ ∈ cbl.list := List.get_mem _ _ _
    have hlpos := hlen _ hmem
    have hsum0 : ¬ ((cbl.list.get ⟨cbl.list.length - 1, hlt⟩).id.clock
        + (cbl.list.get ⟨cbl.list.length - 1, hlt⟩).len = 0) := by omega
    rw [if_neg hsum0]
    have hd0 : ¬ ((cbl.list.get ⟨cbl.list.length - 1, hlt⟩).id.clock
        + (cbl.list.get ⟨cbl.list.length - 1, hlt⟩).len - 1 = 0) := by
      intro h0
      -- then get_state = 1, so clock = 0 and the last block starts at 0,
      -- contradicting the not-equal branch
      omega
    rw [if_neg hd0]
    obtain ⟨i0, hi0, hb1, hb2⟩ := exists_bracket (blockStart cbl.list)
      cbl.list.length clock rfl (by omega)
    have hdivle : clock / ((cbl.list.get ⟨cbl.list.length - 1, hlt⟩).id.clock
        + (cbl.list.get ⟨cbl.list.length - 1, hlt⟩).len - 1) ≤ 1 := by
      apply Nat.div_le_of_le_mul
      omega
    obtain ⟨i, h, hres, hbb1, hbb2⟩ := findPivotLoop_ok cbl.list clock hcl
      (cbl.list.length + 1) 0
      (cbl.list.length - 1)
      (clock / ((cbl.list.get ⟨cbl.list.length - 1, hlt⟩).id.clock
        + (cbl.list.get ⟨cbl.list.length - 1, hlt⟩).len - 1) * (cbl.list.length - 1))
      i0 hi0 hb1 hb2 (by omega)
      (by
        have : clock / ((cbl.list.get ⟨cbl.list.length - 1, hlt⟩).id.clock
            + (cbl.list.get ⟨cbl.list.length - 1, hlt⟩).len - 1)
            * (cbl.list.length - 1) ≤ 1 * (cbl.list.length - 1) :=
          Nat.mul_le_mul_right _ hdivle
        omega)
      (by omega) (by omega) (by omega) (by omega)
    exact ⟨i, h, hres, hconv i h hbb1 hbb2⟩

/-- Concrete block list for the find_pivot witness: two contiguous GC
blocks covering clocks 0..4. -/
def c9Example : ClientBlockList := ⟨[Block.gc ⟨1, 0⟩ 2, Block.gc ⟨1, 2⟩ 3], 2⟩

/-- Witness for C9 at a concrete list and clock. -/
theorem C9_find_pivot_ok_witness :
    ∃ i, ∃ h : i < c9Example.list.length,
      c9Example.findPivot 3 = .ok (some i) ∧
      (c9Example.list.get ⟨i, h⟩).id.clock ≤ 3 ∧
      3 < (c9Example.list.get ⟨i, h⟩).id.clock + (c9Example.list.get ⟨i, h⟩).len :=
  C9_find_pivot_ok c9Example 3 (List.cons_ne_nil _ _) rfl (by decide) (by decide) (by decide)

/-- The claim's reading of get_state: the end clock of the last stored
block, or 0 when the store holds no blocks for the client. -/
def lastStoredBlockEnd (cbl : ClientBlockList) : Nat :=
  match cbl.list.getLast? with
  | some b => b.id.clock + b.len
  | none => 0

/-- Client list holding one stored block that has not been counted as
integrated, exactly the state BlockStore::from produces (it pushes
decoded blocks without ever touching integrated_len). -/
def c5Example : ClientBlockList := ⟨[Block.gc ⟨7, 0⟩ 3], 0⟩

/-- Counterexample for C5: a client list that stores a block (so the
claim requires get_state = last stored block end = 3), yet get_state
returns 0 because integrated_len is 0. -/
theorem C5_get_state_counterexample :
    c5Example.list ≠ [] ∧
    ClientBlockList.getState c5Example = 0 ∧
    lastStoredBlockEnd c5Example = 3 ∧
    BlockStore.getState ⟨[(7, c5Example)]⟩ 7 = 0 ∧ (0 : Nat) ≠ 3 :=
  ⟨List.cons_ne_nil _ _, rfl, rfl, rfl, by omega⟩

/-- C5 amended: get_state returns 0 when integrated_len is 0 (even if
blocks are stored), and otherwise the end clock of the block at index
integrated_len - 1; when every stored block is integrated this is the
last stored block's end, the first clock not yet assigned. At store
level an unknown client yields 0 and a known client defers to its list. -/
theorem C5_get_state_amended :
    (∀ cbl : ClientBlockList, cbl.integratedLen = 0 → cbl.getState = 0)
    ∧ (∀ cbl : ClientBlockList, cbl.integratedLen = cbl.list.length →
        cbl.list ≠ [] → cbl.getState = lastStoredBlockEnd cbl)
    ∧ (∀ (s : BlockStore) (c : Nat), storeLookup s.clients c = none → s.getState c = 0)
    ∧ (∀ (s : BlockStore) (c : Nat) (cbl : ClientBlockList),
        storeLookup s.clients c = some cbl → s.getState c = cbl.getState) := by
  refine ⟨?_, ?_, ?_, ?_⟩
  · intro cbl h
    simp [ClientBlockList.getState, h]
  · intro cbl hint hne
    unfold ClientBlockList.getState lastStoredBlockEnd
    have hlen0 : cbl.list.length ≠ 0 := by
      intro h
      exact hne (List.length_eq_zero.mp h)
    rw [hint, if_neg hlen0]
    have hlt : cbl.list.length - 1 < cbl.list.length := by omega
    rw [List.getLast?_eq_getElem?, List.getD_eq_getElem?_getD,
      List.getElem?_eq_getElem hlt]
    rfl
  · intro s c h
    simp [BlockStore.getState, h]
  · intro s c cbl h
    simp [BlockStore.getState, h]

/-- Witness for the amended C5 at a fully integrated list. -/
theorem C5_get_state_amended_witness :
    ClientBlockList.getState ⟨[Block.gc ⟨1, 0⟩ 2], 1⟩
      = lastStoredBlockEnd ⟨[Block.gc ⟨1, 0⟩ 2], 1⟩ :=
  C5_get_state_amended.2.1 ⟨[Block.gc ⟨1, 0⟩ 2], 1⟩ rfl (List.cons_ne_nil _ _)

/-- Store with a single client whose next clock is 5, used to exhibit
the missing length prefix of BlockStore::encode_state_vector. -/
def c4Store : BlockStore := ⟨[(1, ⟨[Block.gc ⟨1, 0⟩ 5], 1⟩)]⟩

/-- C4: StateVector::encode emits var_uint(num_clients) followed by the
pairs, and StateVector::decode inverts it; but on the very same store
BlockStore::encode_state_vector emits only the pairs without the leading
count, so its output does not decode back to the state vector (decoding
runs off the end of the stream). -/
theorem C4_state_vector_encoding :
    StateVector.ofStore c4Store = ⟨[(1, 5)]⟩
    ∧ (StateVector.ofStore c4Store).encode = [1, 1, 5]
    ∧ StateVector.decode ((StateVector.ofStore c4Store).encode) = some ⟨[(1, 5)]⟩
    ∧ c4Store.encodeStateVector = [1, 5]
    ∧ StateVector.decode (c4Store.encodeStateVector) = none :=
  ⟨rfl, rfl, rfl, rfl, rfl⟩

/-! ## The v1 block decoder of BlockStore::from

Embedding of BlockStore::from (src/yrs/src/block_store.rs, lines
141-208). The decoder primitives read_info (one byte), read_client /
read_uvar (var-uint), read_left_id / read_right_id (a pair of var-uints)
and read_string (var-length string) live in the missing updates/decoder
module and are modelled from the spec's grammar (section 4.3). Note two
quirks embedded faithfully from the source: the block id is computed
once per client section (the local clock variable advances but the id
does not), and when an origin flag is present the parent is read from
the stream as an ID while parent_sub is skipped. -/

/-- Single byte reader (read_u8 / read_info). -/
def readU8 : List Nat → Option (Nat × List Nat)
  | [] => none
  | b :: rest => some (b, rest)

/-- Reader of an ID as a pair of var-uints (read_left_id /
read_right_id). -/
def readID (st : List Nat) : Option (ID × List Nat) :=
  match readVarUint st with
  | some (client, r) =>
    match readVarUint r with
    | some (clock, r2) => some (⟨client, clock⟩, r2)
    | none => none
  | none => none

/-- Modelled from the spec (section 4.3): ItemContent::decode for the
content kinds whose encoding the spec defines, dispatched on the low
four bits of the info byte. Deleted reads a var-uint length, Binary and
String read a var-length payload, Any reads a counted run of Any values;
the remaining kinds (JSON, Embed, Format, Type, Doc, Move) have no
encoding given by the spec and fail the decoder. -/
def decodeItemContent (info : Nat) (st : List Nat) : Option (ItemContent × List Nat) :=
  match info % 16 with
  | 1 =>
    match readVarUint st with
    | some (len, r) => some (.deletedLen len, r)
    | none => none
  | 3 =>
    match readString st with
    | some (bs, r) => some (.binary bs, r)
    | none => none
  | 4 =>
    match readString st with
    | some (s, r) => some (.stringContent s, r)
    | none => none
  | 8 =>
    match readVarUint st with
    | some (n, r) =>
      match decodeAnyList (r.length + 1) n r with
      | some (vs, r2) => some (.anyContent vs, r2)
      | none => none
    | none => none
  | _ => none

/-- The inner block loop of BlockStore::from: reads the given number of
blocks for one client section. The id is fixed to the section's starting
id, as in the source, where the id is built before the loop and the
advancing clock variable never feeds back into it. -/
def readClientBlocks (id : ID) : Nat → List Nat → Option (List Block × List Nat)
  | 0, st => some ([], st)
  | n + 1, st =>
    match readU8 st with
    | none => none
    | some (info, st1) =>
      if info = 10 then -- BLOCK_SKIP_REF_NUMBER
        match readVarUint st1 with
        | some (len, st2) =>
          match readClientBlocks id n st2 with
          | some (blocks, st3) => some (Block.skip id len :: blocks, st3)
          | none => none
        | none => none
      else if info = 0 then -- BLOCK_GC_REF_NUMBER
        match readVarUint st1 with
        | some (len, st2) =>
          match readClientBlocks id n st2 with
          | some (blocks, st3) => some (Block.gc id len :: blocks, st3)
          | none => none
        | none => none
      else
        let cantCopyParentInfo := info &&& 192 = 0
        let step1 : Option (Option ID × List Nat) :=
          if info &&& 128 ≠ 0 then
            match readID st1 with
            | some (o, r) => some (some o, r)
            | none => none
          else some (none, st1)
        match step1 with
        | none => none
        | some (origin, st2) =>
          let step2 : Option (Option ID × List Nat) :=
            if info &&& 64 ≠ 0 then
              match readID st2 with
              | some (o, r) => some (some o, r)
              | none => none
            else some (none, st2)
          match step2 with
          | none => none
          | some (rightOrigin, st3) =>
            let step3 : Option (TypePtr × List Nat) :=
              if cantCopyParentInfo then
                match readString st3 with
                | some (s, r) => some (.named s, r)
                | none => none
              else
                match readID st3 with
                | some (i, r) => some (.idPtr i, r)
                | none => none
            match step3 with
            | none => none
            | some (parent, st4) =>
              let step4 : Option (Option (List Nat) × List Nat) :=
                if cantCopyParentInfo ∧ info &&& 32 ≠ 0 then
                  match readString st4 with
                  | some (s, r) => some (some s, r)
                  | none => none
                else some (none, st4)
              match step4 with
              | none => none
              | some (parentSub, st5) =>
                match decodeItemContent info st5 with
                | none => none
                | some (content, st6) =>
                  match readClientBlocks id n st6 with
                  | some (blocks, st7) =>
                    some (Block.item
                      { id, left := none, right := none, origin, rightOrigin,
                        parent, parentSub, content, deleted := false } :: blocks, st7)
                  | none => none

/-- Insert-or-extend of a client's decoded blocks into the store's
client map (get_client_blocks_mut followed by list pushes); a fresh
entry starts with integrated_len 0 and the decode loop never updates it. -/
def storePush (clients : List (Nat × ClientBlockList)) (client : Nat)
    (bs : List Block) : List (Nat × ClientBlockList) :=
  match clients with
  | [] => [(client, ⟨bs, 0⟩)]
  | (c, l) :: rest =>
    if c = client then (c, ⟨l.list ++ bs, l.integratedLen⟩) :: rest
    else (c, l) :: storePush rest client bs

/-- The outer client-section loop of BlockStore::from. -/
def readStoreClients : Nat → List (Nat × ClientBlockList) → List Nat →
    Option (List (Nat × ClientBlockList) × List Nat)
  | 0, acc, st => some (acc, st)
  | n + 1, acc, st =>
    match readVarUint st with
    | some (blocksLen, st1) =>
      match readVarUint st1 with
      | some (client, st2) =>
        match readVarUint st2 with
        | some (clock, st3) =>
          match readClientBlocks ⟨client, clock⟩ blocksLen st3 with
          | some (blocks, st4) =>
            readStoreClients n (storePush acc client blocks) st4
          | none => none
        | none => none
      | none => none
    | none => none

/-- BlockStore::from over a byte stream: reads the client sections and
returns the store together with the unread remainder (the delete set is
not consumed by this constructor). -/
def blockStoreFrom (st : List Nat) : Option (BlockStore × List Nat) :=
  match readVarUint st with
  | some (updatesCount, st1) =>
    match readStoreClients updatesCount [] st1 with
    | some (clients, st2) => some (⟨clients⟩, st2)
    | none => none
  | none => none

/-- The 18-byte v1 update from the repository's own
merge_updates_compatibility_2 vector (generated by Yjs): one Item block
with only the right-origin flag set (info byte 68) whose correct v1
reading is parent inherited from the origin and content the one-byte
string 98 ("b"), followed by an empty delete set byte. -/
def c2Bytes : List Nat :=
  [1, 1, 129, 231, 135, 164, 7, 1, 68, 129, 231, 135, 164, 7, 0, 1, 98, 0]

/-- C2, evaluated at the failing input: although the info byte has an
origin flag set, BlockStore::from reads a parent ID from the byte stream
(consuming the bytes 1 and 98, which in this Yjs-produced update are the
var-length string content "b"), skips parent_sub, and is left with an
empty string content. This refutes the claim that no parent field is
read when an origin flag is set. -/
theorem C2_blockstore_from_reads_parent :
    blockStoreFrom c2Bytes =
      some (⟨[(1954673537, ⟨[Block.item
        { id := ⟨1954673537, 1⟩, left := none, right := none,
          origin := none, rightOrigin := some ⟨1954673537, 0⟩,
          parent := .idPtr ⟨1, 98⟩, parentSub := none,
          content := .stringContent [], deleted := false }], 0⟩)]⟩, []) := rfl

/-! ## Branch type references (src/yrs/src/branch.rs)

Embedding of Branch::repair_type_ref together with the branch fields a
type-ref change could conceivably affect. Pointers into the store are
represented by IDs. -/

/-- Type-ref discriminator of a branch (enum TypeRef). -/
inductive TypeRef where
  | array
  | map
  | text
  | xmlElement (tag : List Nat)
  | xmlFragment
  | xmlText
  | xmlHook
  | weakLink
  | subDoc
  | undefined
deriving DecidableEq, Repr

/-- Branch node contents relevant to type-ref repair: the sequence head,
the map entries, the owning item, the cached lengths and the type ref. -/
structure BranchNode where
  start : Option ID
  mapEntries : List (List Nat × ID)
  item : Option ID
  blockLen : Nat
  contentLen : Nat
  typeRef : TypeRef
deriving DecidableEq, Repr

/-- Branch::repair_type_ref: the type ref is replaced only when the
current one is Undefined; otherwise the branch is left untouched. -/
def repairTypeRef (b : BranchNode) (t : TypeRef) : BranchNode :=
  if b.typeRef = TypeRef.undefined then { b with typeRef := t } else b

/-- A root branch created as a map and already populated with one entry. -/
def c7Example : BranchNode :=
  { start := none, mapEntries := [([120], ⟨1, 0⟩)], item := none,
    blockLen := 0, contentLen := 0, typeRef := TypeRef.map }

/-- Counterexample for C7: requesting the same root under a different
type does not coerce the type-ref; a branch created as Map and then
requested as Array keeps type-ref Map, unchanged in every field. -/
theorem C7_repair_type_ref_counterexample :
    (repairTypeRef c7Example TypeRef.array).typeRef = TypeRef.map ∧
    TypeRef.map ≠ TypeRef.array ∧
    repairTypeRef c7Example TypeRef.array = c7Example := by
  refine ⟨rfl, ?_, rfl⟩
  intro h
  cases h

/-- C7 amended: repair_type_ref installs the newly requested type-ref
only when the pre-existing branch still has type-ref Undefined; a branch
that already has a concrete type-ref keeps it (the call returns the
pre-existing branch completely unchanged), and in either case no stored
contents are lost. -/
theorem C7_repair_type_ref_amended (b : BranchNode) (t : TypeRef) :
    (b.typeRef = TypeRef.undefined → repairTypeRef b t =
      { b with typeRef := t })
    ∧ (b.typeRef ≠ TypeRef.undefined → repairTypeRef b t = b)
    ∧ (repairTypeRef b t).start = b.start
    ∧ (repairTypeRef b t).mapEntries = b.mapEntries
    ∧ (repairTypeRef b t).item = b.item
    ∧ (repairTypeRef b t).blockLen = b.blockLen
    ∧ (repairTypeRef b t).contentLen = b.contentLen := by
  unfold repairTypeRef
  split_ifs with h
  · exact ⟨fun _ => rfl, fun hne => absurd h hne, rfl, rfl, rfl, rfl, rfl⟩
  · exact ⟨fun he => absurd he h, fun _ => rfl, rfl, rfl, rfl, rfl, rfl⟩

/-- Witness for the amended C7: an Undefined branch takes the requested
type, and the Map branch of the counterexample keeps its contents. -/
theorem C7_repair_type_ref_amended_witness :
    repairTypeRef c7Example TypeRef.array = c7Example :=
  (C7_repair_type_ref_amended c7Example TypeRef.array).2.1 (by decide)

/-! ## The v1 update codec and merge_updates

The update codec (update.rs and updates/) is not part of the sources;
the following is modelled from the spec: the top-level v1 grammar of
section 4.3 (clients section and delete set), the state-vector section
4.4, and the merge semantics of section 4.5 ("decode each, concatenate
blocks per client sorted by clock, union delete sets", where the byte
vectors of section 8 pin that contiguous same-client sections keep their
blocks as separate blocks). Blocks inside one client section are laid
out contiguously from the section's start clock, so decoded blocks carry
no individual ids. -/

/-- Content kind code of a content payload (low four bits of the info
byte; spec section 4.3). -/
def ItemContent.kindCode : ItemContent → Nat
  | .deletedLen _ => 1
  | .binary _ => 3
  | .stringContent _ => 4
  | .anyContent _ => 8

/-- Modelled from the spec: the content encoder matching
decodeItemContent. -/
def encodeItemContent : ItemContent → List Nat
  | .deletedLen n => writeVarUint n
  | .binary bs => writeString bs
  | .stringContent s => writeString s
  | .anyContent vs => writeVarUint vs.length ++ encodeAnyList vs

/-- Item of the v1 update grammar: the parent field is present exactly
when neither origin flag is set. -/
structure UpdateItem where
  origin : Option ID
  rightOrigin : Option ID
  parent : Option TypePtr
  parentSub : Option (List Nat)
  content : ItemContent

/-- Block of the v1 update grammar. -/
inductive UpdateBlock where
  | gc (len : Nat)
  | skip (len : Nat)
  | item (it : UpdateItem)

/-- Length of an update block in clock units. -/
def UpdateBlock.len : UpdateBlock → Nat
  | .gc n => n
  | .skip n => n
  | .item it => it.content.len

/-- One client section of an update: number of blocks, client, start
clock, then the blocks laid out contiguously. -/
structure ClientSection where
  client : Nat
  startClock : Nat
  blocks : List UpdateBlock

/-- Delete-set entry of one client. -/
structure DsClient where
  client : Nat
  ranges : List (Nat × Nat)

/-- Decoded update: client sections and a delete set. -/
structure UpdateRep where
  clients : List ClientSection
  ds : List DsClient

/-- Encoder of an optional ID (an origin). -/
def writeOptID : Option ID → List Nat
  | none => []
  | some i => writeVarUint i.client ++ writeVarUint i.clock

/-- Parent encoder: kind var-uint first (1 for a named root, 0 for a
nested item ID), then the payload. -/
def writeParent : TypePtr → List Nat
  | .named s => writeVarUint 1 ++ writeString s
  | .idPtr i => writeVarUint 0 ++ (writeVarUint i.client ++ writeVarUint i.clock)

/-- Item encoder of the v1 grammar: info byte with the origin and
parent_sub flags, then origins, then the parent when no origin flag is
set, then parent_sub, then the content. -/
def encodeUpdateItem (it : UpdateItem) : List Nat :=
  let info := it.content.kindCode
    + (if it.origin.isSome then 128 else 0)
    + (if it.rightOrigin.isSome then 64 else 0)
    + (if it.parentSub.isSome then 32 else 0)
  info :: (writeOptID it.origin ++ (writeOptID it.rightOrigin
    ++ ((match it.parent with
        | some p => writeParent p
        | none => [])
      ++ ((match it.parentSub with
          | some s => writeString s
          | none => [])
        ++ encodeItemContent it.content))))

/-- Block encoder of the v1 grammar. -/
def encodeUpdateBlock : UpdateBlock → List Nat
  | .gc len => 0 :: writeVarUint len
  | .skip len => 10 :: writeVarUint len
  | .item it => encodeUpdateItem it

/-- Encoder of a run of blocks. -/
def encodeUpdateBlocks : List UpdateBlock → List Nat
  | [] => []
  | b :: rest => encodeUpdateBlock b ++ encodeUpdateBlocks rest

/-- Client section encoder. -/
def encodeClientSection (s : ClientSection) : List Nat :=
  writeVarUint s.blocks.length ++ (writeVarUint s.client
    ++ (writeVarUint s.startClock ++ encodeUpdateBlocks s.blocks))

/-- Encoder of the runs of client sections. -/
def encodeClientSections : List ClientSection → List Nat
  | [] => []
  | s :: rest => encodeClientSection s ++ encodeClientSections rest

/-- Delete-set range list encoder. -/
def encodeDsRanges : List (Nat × Nat) → List Nat
  | [] => []
  | (clock, len) :: rest => writeVarUint clock ++ (writeVarUint len ++ encodeDsRanges rest)

/-- Delete-set client list encoder. -/
def encodeDsClients : List DsClient → List Nat
  | [] => []
  | d :: rest =>
    writeVarUint d.client ++ (writeVarUint d.ranges.length
      ++ (encodeDsRanges d.ranges ++ encodeDsClients rest))

/-- Update encoder: clients section then delete set. -/
def encodeUpdate (u : UpdateRep) : List Nat :=
  writeVarUint u.clients.length ++ (encodeClientSections u.clients
    ++ (writeVarUint u.ds.length ++ encodeDsClients u.ds))

/-- Item decoder of the v1 grammar, inverse of encodeUpdateItem. -/
def decodeUpdateItem (info : Nat) (st : List Nat) : Option (UpdateItem × List Nat) :=
  let step1 : Option (Option ID × List Nat) :=
    if info &&& 128 ≠ 0 then
      match readID st with
      | some (o, r) => some (some o, r)
      | none => none
    else some (none, st)
  match step1 with
  | none => none
  | some (origin, st1) =>
    let step2 : Option (Option ID × List Nat) :=
      if info &&& 64 ≠ 0 then
        match readID st1 with
        | some (o, r) => some (some o, r)
        | none => none
      else some (none, st1)
    match step2 with
    | none => none
    | some (rightOrigin, st2) =>
      let step3 : Option (Option TypePtr × List Nat) :=
        if info &&& 192 = 0 then
          match readVarUint st2 with
          | some (kind, r) =>
            if kind = 1 then
              match readString r with
              | some (s, r2) => some (some (.named s), r2)
              | none => none
            else
              match readID r with
              | some (i, r2) => some (some (.idPtr i), r2)
              | none => none
          | none => none
        else some (none, st2)
      match step3 with
      | none => none
      | some (parent, st3) =>
        let step4 : Option (Option (List Nat) × List Nat) :=
          if info &&& 32 ≠ 0 then
            match readString st3 with
            | some (s, r) => some (some s, r)
            | none => none
          else some (none, st3)
        match step4 with
        | none => none
        | some (parentSub, st4) =>
          match decodeItemContent info st4 with
          | some (content, st5) =>
            some ({ origin, rightOrigin, parent, parentSub, content }, st5)
          | none => none

/-- Decoder of a counted run of update blocks. -/
def decodeUpdateBlocks : Nat → List Nat → Option (List UpdateBlock × List Nat)
  | 0, st => some ([], st)
  | n + 1, st =>
    match readU8 st with
    | none => none
    | some (info, st1) =>
      if info = 10 then
        match readVarUint st1 with
        | some (len, st2) =>
          match decodeUpdateBlocks n st2 with
          | some (blocks, st3) => some (.skip len :: blocks, st3)
          | none => none
        | none => none
      else if info = 0 then
        match readVarUint st1 with
        | some (len, st2) =>
          match decodeUpdateBlocks n st2 with
          | some (blocks, st3) => some (.gc len :: blocks, st3)
          | none => none
        | none => none
      else
        match decodeUpdateItem info st1 with
        | some (it, st2) =>
          match decodeUpdateBlocks n st2 with
          | some (blocks, st3) => some (.item it :: blocks, st3)
          | none => none
        | none => none

/-- Decoder of a counted run of client sections. -/
def decodeClientSections : Nat → List Nat → Option (List ClientSection × List Nat)
  | 0, st => some ([], st)
  | n + 1, st =>
    match readVarUint st with
    | some (blocksLen, st1) =>
      match readVarUint st1 with
      | some (client, st2) =>
        match readVarUint st2 with
        | some (startClock, st3) =>
          match decodeUpdateBlocks blocksLen st3 with
          | some (blocks, st4) =>
            match decodeClientSections n st4 with
            | some (sections, st5) =>
              some ({ client, startClock, blocks } :: sections, st5)
            | none => none
          | none => none
        | none => none
      | none => none
    | none => none

/-- Decoder of a counted run of delete-set ranges. -/
def decodeDsRanges : Nat → List Nat → Option (List (Nat × Nat) × List Nat)
  | 0, st => some ([], st)
  | n + 1, st =>
    match readVarUint st with
    | some (clock, st1) =>
      match readVarUint st1 with
      | some (len, st2) =>
        match decodeDsRanges n st2 with
        | some (ranges, st3) => some ((clock, len) :: ranges, st3)
        | none => none
      | none => none
    | none => none

/-- Decoder of a counted run of delete-set clients. -/
def decodeDsClients : Nat → List Nat → Option (List DsClient × List Nat)
  | 0, st => some ([], st)
  | n + 1, st =>
    match readVarUint st with
    | some (client, st1) =>
      match readVarUint st1 with
      | some (numRanges, st2) =>
        match decodeDsRanges numRanges st2 with
        | some (ranges, st3) =>
          match decodeDsClients n st3 with
          | some (rest, st4) => some ({ client, ranges } :: rest, st4)
          | none => none
        | none => none
      | none => none
    | none => none

/-- Update decoder of the v1 grammar, returning the unread remainder. -/
def decodeUpdate (st : List Nat) : Option (UpdateRep × List Nat) :=
  match readVarUint st with
  | some (numClients, st1) =>
    match decodeClientSections numClients st1 with
    | some (clients, st2) =>
      match readVarUint st2 with
      | some (numDs, st3) =>
        match decodeDsClients numDs st3 with
        | some (ds, st4) => some ({ clients, ds }, st4)
        | none => none
      | none => none
    | none => none
  | none => none

/-- Total length in clock units of a run of update blocks. -/
def sumBlockLens : List UpdateBlock → Nat
  | [] => 0
  | b :: rest => b.len + sumBlockLens rest

/-- Modelled from the spec (section 4.5): merging one client section
into the accumulated per-client sections. A fresh client is appended;
two sections of the same client are ordered by start clock and their
block runs concatenated, bridging a gap with a Skip block (section 3:
Skip is a placeholder for missing clocks); the spec does not define
overlap resolution, so overlapping sections are kept apart. -/
def insertSection (acc : List ClientSection) (s : ClientSection) : List ClientSection :=
  match acc with
  | [] => [s]
  | s0 :: rest =>
    if s0.client = s.client then
      let a := if s.startClock < s0.startClock then s else s0
      let b := if s.startClock < s0.startClock then s0 else s
      let aEnd := a.startClock + sumBlockLens a.blocks
      if aEnd = b.startClock then
        { client := a.client, startClock := a.startClock,
          blocks := a.blocks ++ b.blocks } :: rest
      else if aEnd < b.startClock then
        { client := a.client, startClock := a.startClock,
          blocks := a.blocks ++ (.skip (b.startClock - aEnd) :: b.blocks) } :: rest
      else s0 :: insertSection rest s
    else s0 :: insertSection rest s

/-- Union of one delete-set range into a sorted disjoint range list,
merging overlapping or touching ranges (spec section 4.6). -/
def insertRange : List (Nat × Nat) → Nat × Nat → List (Nat × Nat)
  | [], r => [r]
  | (c0, l0) :: rest, (c, l) =>
    if c + l < c0 then (c, l) :: (c0, l0) :: rest
    else if c0 + l0 < c then (c0, l0) :: insertRange rest (c, l)
    else
      let lo := min c c0
      insertRange rest (lo, max (c + l) (c0 + l0) - lo)

/-- Modelled from the spec (section 4.5): union of one client's delete
ranges into the accumulated delete set. -/
def insertDsClient (acc : List DsClient) (d : DsClient) : List DsClient :=
  match acc with
  | [] => [d]
  | d0 :: rest =>
    if d0.client = d.client then
      { client := d0.client, ranges := d.ranges.foldl insertRange d0.ranges } :: rest
    else d0 :: insertDsClient rest d

/-- Modelled from the spec (section 4.5): Update::merge_updates over
decoded updates — concatenate blocks per client sorted by clock, union
delete sets. -/
def mergeUpdatesRep (us : List UpdateRep) : UpdateRep :=
  { clients := us.foldl (fun acc u => u.clients.foldl insertSection acc) []
    ds := us.foldl (fun acc u => u.ds.foldl insertDsClient acc) [] }

/-- Decoder of every update in a batch (Update::decode_v1 per update;
a malformed update is a decode failure). -/
def decodeAllUpdates : List (List Nat) → Option (List UpdateRep)
  | [] => some []
  | u :: rest =>
    match decodeUpdate u with
    | some (rep, _) =>
      match decodeAllUpdates rest with
      | some reps => some (rep :: reps)
      | none => none
    | none => none

/-- merge_updates over raw byte updates (alt.rs line 10): decode every
update, merge the decoded representations, re-encode. -/
def mergeUpdates (us : List (List Nat)) : Option (List Nat) :=
  match decodeAllUpdates us with
  | some reps => some (encodeUpdate (mergeUpdatesRep reps))
  | none => none

/-- Absence of a client id from a list of ids. -/
def natAbsent (n : Nat) : List Nat → Bool
  | [] => true
  | m :: ms => !(m == n) && natAbsent n ms

theorem natAbsent_iff (n : Nat) (ns : List Nat) :
    natAbsent n ns = true ↔ ¬ n ∈ ns := by
  induction ns with
  | nil => simp [natAbsent]
  | cons m ms ih =>
    simp only [natAbsent, Bool.and_eq_true, Bool.not_eq_true', beq_eq_false_iff_ne,
      ne_eq, ih, List.mem_cons]
    constructor
    · rintro ⟨h1, h2⟩ (he | hm)
      · exact h1 he.symm
      · exact h2 hm
    · intro h
      exact ⟨fun he => h (Or.inl he.symm), fun hm => h (Or.inr hm)⟩

/-- Pairwise distinctness of a list of client ids. -/
def natsDistinct : List Nat → Bool
  | [] => true
  | n :: ns => natAbsent n ns && natsDistinct ns

/-- Well-formed v1 update bytes: they parse under the v1 grammar with
nothing left over, re-encode to the identical bytes (the canonical form
every encoder produces: minimal var-ints, one section per client), and
group blocks by client with one section and one delete-set entry per
client as the spec's data model prescribes. -/
def wellFormedUpdateV1 (bytes : List Nat) : Bool :=
  match decodeUpdate bytes with
  | some (rep, []) =>
    (encodeUpdate rep == bytes)
      && natsDistinct (rep.clients.map (fun s => s.client))
      && natsDistinct (rep.ds.map (fun d => d.client))
  | _ => false

theorem insertSection_fresh : ∀ (acc : List ClientSection) (s : ClientSection),
    (¬ s.client ∈ acc.map (fun s0 => s0.client)) → insertSection acc s = acc ++ [s] := by
  intro acc
  induction acc with
  | nil => intro s _; rfl
  | cons s0 rest ih =>
    intro s h
    simp only [List.map_cons, List.mem_cons] at h
    push_neg at h
    unfold insertSection
    rw [if_neg (fun he => h.1 he.symm), ih s h.2]
    rfl

theorem foldl_insertSection (secs : List ClientSection) (acc : List ClientSection)
    (hd : natsDistinct (secs.map (fun s => s.client)) = true)
    (hdisj : ∀ c, c ∈ secs.map (fun s => s.client) → ¬ c ∈ acc.map (fun s => s.client)) :
    secs.foldl insertSection acc = acc ++ secs := by
  induction secs generalizing acc with
  | nil => simp
  | cons s rest ih =>
    simp only [List.map_cons, natsDistinct, Bool.and_eq_true] at hd
    simp only [List.foldl_cons]
    rw [insertSection_fresh acc s (hdisj s.client (by simp))]
    rw [ih (acc ++ [s]) hd.2]
    · simp
    · intro c hc
      simp only [List.map_append, List.mem_append, List.map_cons, List.map_nil]
      rintro (hin | hin)
      · exact hdisj c (by simp [hc]) hin
      · simp only [List.mem_singleton] at hin
        subst hin
        exact (natAbsent_iff s.client (rest.map (fun s => s.client))).mp hd.1 hc

theorem insertDsClient_fresh : ∀ (acc : List DsClient) (d : DsClient),
    (¬ d.client ∈ acc.map (fun d0 => d0.client)) → insertDsClient acc d = acc ++ [d] := by
  intro acc
  induction acc with
  | nil => intro d _; rfl
  | cons d0 rest ih =>
    intro d h
    simp only [List.map_cons, List.mem_cons] at h
    push_neg at h
    unfold insertDsClient
    rw [if_neg (fun he => h.1 he.symm), ih d h.2]
    rfl

theorem foldl_insertDsClient (dss : List DsClient) (acc : List DsClient)
    (hd : natsDistinct (dss.map (fun d => d.client)) = true)
    (hdisj : ∀ c, c ∈ dss.map (fun d => d.client) → ¬ c ∈ acc.map (fun d => d.client)) :
    dss.foldl insertDsClient acc = acc ++ dss := by
  induction dss generalizing acc with
  | nil => simp
  | cons d rest ih =>
    simp only [List.map_cons, natsDistinct, Bool.and_eq_true] at hd
    simp only [List.foldl_cons]
    rw [insertDsClient_fresh acc d (hdisj d.client (by simp))]
    rw [ih (acc ++ [d]) hd.2]
    · simp
    · intro c hc
      simp only [List.map_append, List.mem_append, List.map_cons, List.map_nil]
      rintro (hin | hin)
      · exact hdisj c (by simp [hc]) hin
      · simp only [List.mem_singleton] at hin
        subst hin
        exact (natAbsent_iff d.client (rest.map (fun d => d.client))).mp hd.1 hc

/-- C1: for every well-formed v1 update byte sequence u (it parses under
the v1 grammar with nothing left over, re-encodes to the identical
bytes, and groups blocks by client), merge_updates applied to the
one-element list [u] returns a byte sequence equal to u. -/
theorem C1_merge_single_update (u : List Nat) (h : wellFormedUpdateV1 u = true) :
    mergeUpdates [u] = some u := by
  unfold wellFormedUpdateV1 at h
  cases hdec : decodeUpdate u with
  | none => rw [hdec] at h; simp at h
  | some pr =>
    obtain ⟨rep, rest⟩ := pr
    rw [hdec] at h
    cases rest with
    | cons b bs => simp at h
    | nil =>
      simp only [Bool.and_eq_true, beq_iff_eq] at h
      obtain ⟨⟨henc, hc⟩, hd⟩ := h
      have hall : decodeAllUpdates [u] = some [rep] := by
        unfold decodeAllUpdates
        rw [hdec]
        rfl
      unfold mergeUpdates
      rw [hall]
      show some (encodeUpdate (mergeUpdatesRep [rep])) = some u
      unfold mergeUpdatesRep
      simp only [List.foldl_cons, List.foldl_nil]
      rw [foldl_insertSection rep.clients [] hc (by simp),
        foldl_insertDsClient rep.ds [] hd (by simp)]
      simp [henc]

/-- The 20-byte canonical v1 update of the repository's
merge_updates_compatibility vector: one client, one String block under
the named root "test" with content "abc", empty delete set. -/
def c1Bytes : List Nat :=
  [1, 1, 220, 240, 237, 172, 15, 0, 4, 1, 4, 116, 101, 115, 116, 3, 97, 98, 99, 0]

/-- Witness for C1 at the concrete compatibility update. -/
theorem C1_merge_single_update_witness :
    wellFormedUpdateV1 c1Bytes = true ∧ mergeUpdates [c1Bytes] = some c1Bytes :=
  ⟨by decide, C1_merge_single_update c1Bytes (by decide)⟩

/-! ## Branch sequence editing (Branch::insert_at / Branch::remove_at)

Embedding of src/yrs/src/branch.rs lines 202-314 over a single branch
whose item chain is materialized as a list (item.right is the next list
element). The offset kind is Bytes, under which
SplittableString::block_offset is the identity, so string offsets equal
indices. The parts living in the missing store and transaction modules
are modelled from the spec: split_block splits an item's content at an
offset, giving the right part the id advanced by the offset (spec
section 4.1); txn.delete marks an item deleted and records its id in the
transaction's delete set (spec section 4.7); create_item builds the new
item between the computed left and right neighbors and integrates it,
which with no concurrent siblings is a plain insertion (spec section
4.2, steps 4 and 5). -/

/-- Content of a chain item: a string of byte units, a countable run of
values, a non-countable format marker, or a deleted-content run. -/
inductive NContent where
  | str (s : List Nat)
  | values (n : Nat)
  | fmt
  | del (n : Nat)
deriving DecidableEq, Repr

/-- Content length under OffsetKind::Bytes. -/
def NContent.contentLen : NContent → Nat
  | .str s => s.length
  | .values n => n
  | .fmt => 1
  | .del n => n

/-- Countability of a content kind (Format and Deleted are not
countable). -/
def NContent.countable : NContent → Bool
  | .str _ => true
  | .values _ => true
  | .fmt => false
  | .del _ => false

/-- Item of a branch chain. -/
structure NItem where
  id : ID
  content : NContent
  deleted : Bool
  moved : Option ID
deriving DecidableEq, Repr

/-- Content length of an item under Bytes. -/
def NItem.contentLen (it : NItem) : Nat := it.content.contentLen

/-- Splitting of a content payload at an offset. -/
def NContent.splitAt (c : NContent) (offset : Nat) : NContent × NContent :=
  match c with
  | .str s => (.str (s.take offset), .str (s.drop offset))
  | .values n => (.values offset, .values (n - offset))
  | .fmt => (.fmt, .fmt)
  | .del n => (.del offset, .del (n - offset))

/-- Modelled from the spec (section 4.1): split_block splits an item at
a content offset; the right part starts at the clock advanced by the
offset and inherits the deletion and move state. -/
def splitItem (it : NItem) (offset : Nat) : NItem × NItem :=
  let (cl, cr) := it.content.splitAt offset
  ({ it with content := cl },
   { id := ⟨it.id.client, it.id.clock + offset⟩, content := cr,
     deleted := it.deleted, moved := it.moved })

/-- Transaction state touched by these operations: the branch chain, the
cached block_len, the delete set accumulated by txn.delete, and the
prev_moved table updated when a moved block is split. -/
structure BranchTxn where
  items : List NItem
  blockLen : Nat
  deleteSet : List ID
  prevMoved : List (ID × ID)
deriving DecidableEq, Repr

/-- Lookup in the prev_moved table. -/
def pmLookup (pm : List (ID × ID)) (i : ID) : Option ID :=
  match pm with
  | [] => none
  | (k, v) :: rest => if k = i then some v else pmLookup rest i

/-- The prev_moved bookkeeping done when a moved item is split: the new
right half inherits the recorded previous destination. -/
def pmAfterSplit (pm : List (ID × ID)) (it : NItem) (rightId : ID) : List (ID × ID) :=
  match it.moved with
  | some _ =>
    match pmLookup pm it.id with
    | some dst => (rightId, dst) :: pm
    | none => pm
  | none => pm

/-- Branch::index_to_ptr: walk the chain counting live countable
content; at an interior index split the item. Returns the processed
prefix (ending at the left neighbor), the suffix starting at the right
neighbor, and the updated prev_moved table. -/
def indexToPtr (pm : List (ID × ID)) : List NItem → Nat →
    (List NItem × List NItem × List (ID × ID))
  | [], _ => ([], [], pm)
  | it :: rest, index =>
    if ¬ it.deleted ∧ it.content.countable then
      let cl := it.contentLen
      if index = cl then ([it], rest, pm)
      else if index < cl then
        let (l, r) := splitItem it index
        ([l], r :: rest, pmAfterSplit pm it r.id)
      else
        let (p, s, pm2) := indexToPtr pm rest (index - cl)
        (it :: p, s, pm2)
    else
      let (p, s, pm2) := indexToPtr pm rest index
      (it :: p, s, pm2)

/-- The deletion walk of Branch::remove_at: delete whole live items while
the remainder covers them, split the last partially covered item, skip
already-deleted items, and stop at the chain end. Returns the updated
suffix, the ids handed to txn.delete, the updated prev_moved table and
the remaining count. -/
def removeWalk (pm : List (ID × ID)) : List NItem → Nat →
    (List NItem × List ID × List (ID × ID) × Nat)
  | rest, 0 => (rest, [], pm, 0)
  | [], remaining => ([], [], pm, remaining)
  | it :: rest, remaining =>
    if ¬ it.deleted then
      let cl := it.contentLen
      if remaining < cl then
        let (l, r) := splitItem it remaining
        ({ l with deleted := true } :: r :: rest, [l.id], pmAfterSplit pm it r.id, 0)
      else
        let (rest2, dels, pm2, rem2) := removeWalk pm rest (remaining - cl)
        ({ it with deleted := true } :: rest2, it.id :: dels, pm2, rem2)
    else
      let (rest2, dels, pm2, rem2) := removeWalk pm rest remaining
      (it :: rest2, dels, pm2, rem2)

/-- Branch::remove_at: resolve the start position (index 0 starts at the
chain head without a walk), then delete up to len countable units,
returning the number of deleted units (len - remaining). There is no
error channel: the Rust signature returns a plain u32. -/
def removeAt (txn : BranchTxn) (index len : Nat) : BranchTxn × Nat :=
  if index = 0 then
    let (items2, dels, pm2, rem) := removeWalk txn.prevMoved txn.items len
    ({ txn with items := items2, deleteSet := txn.deleteSet ++ dels, prevMoved := pm2 },
      len - rem)
  else
    let (pre, suf, pm1) := indexToPtr txn.prevMoved txn.items index
    let (suf2, dels, pm2, rem) := removeWalk pm1 suf len
    ({ txn with items := pre ++ suf2, deleteSet := txn.deleteSet ++ dels, prevMoved := pm2 },
      len - rem)

/-- Outcome of Branch::insert_at: the Rust function returns a plain
ItemPtr and panics on a bad index, so the failure constructor models the
panic, not a returned error value. -/
inductive InsertOutcome where
  | ok (txn : BranchTxn) (newId : ID)
  | panicked (msg : List Nat)
deriving DecidableEq, Repr

/-- Bytes of the panic message of insert_at (it has no meaning to the
model beyond being the panic payload). -/
def insertPanicMsg : List Nat := [105, 110, 100, 101, 120]

/-- Branch::insert_at: the index is checked against self.len(), which is
the cached block_len, and the function panics when the index exceeds it;
otherwise the left and right neighbors are resolved (index 0 inserts at
the head) and the new item is created between them. create_item lives in
the missing transaction module and is modelled from the spec (section
4.2): with no concurrent siblings the new block lands exactly between
left and right, and block_len grows by one. -/
def insertAt (txn : BranchTxn) (index : Nat) (newId : ID) (c : NContent) : InsertOutcome :=
  if index ≤ txn.blockLen then
    let newItem : NItem := { id := newId, content := c, deleted := false, moved := none }
    if index = 0 then
      .ok { txn with items := newItem :: txn.items, blockLen := txn.blockLen + 1 } newId
    else
      let (pre, suf, pm1) := indexToPtr txn.prevMoved txn.items index
      let t2 : BranchTxn :=
        { txn with items := pre ++ newItem :: suf, blockLen := txn.blockLen + 1, prevMoved := pm1 }
      .ok t2 newId
  else
    .panicked insertPanicMsg

/-- One-item branch for the C3 counterexample: a single live string of
one byte at clock 0, fully counted in block_len and content. -/
def c3Txn : BranchTxn :=
  { items := [{ id := ⟨1, 0⟩, content := .str [97], deleted := false, moved := none }],
    blockLen := 1, deleteSet := [], prevMoved := [] }

/-- Counterexample for C3: removing five units from a branch holding one
unit does not fail — it deletes the one available item, returns the
count 1 with no error channel at all, and visibly changes the
transaction state (the item is now deleted and the delete set grew); and
inserting at index 7 > len() panics instead of returning an error. -/
theorem C3_out_of_bounds_counterexample :
    removeAt c3Txn 0 5 =
      ({ items := [{ id := ⟨1, 0⟩, content := .str [97], deleted := true, moved := none }],
         blockLen := 1, deleteSet := [⟨1, 0⟩], prevMoved := [] }, 1)
    ∧ (removeAt c3Txn 0 5).1 ≠ c3Txn
    ∧ insertAt c3Txn 7 ⟨1, 1⟩ (.str [98]) = .panicked insertPanicMsg := by
  decide

/-- C3 amended: remove_at never fails — it always returns, deleting at
most the requested number of units and reporting how many were deleted —
while insert_at checks the index against len() (the cached block_len,
not content_len) and panics, rather than returning an error, exactly
when the index exceeds it. -/
theorem C3_out_of_bounds_amended :
    (∀ (txn : BranchTxn) (index len : Nat), (removeAt txn index len).2 ≤ len)
    ∧ (∀ (txn : BranchTxn) (index : Nat) (newId : ID) (c : NContent),
        txn.blockLen < index → insertAt txn index newId c = .panicked insertPanicMsg)
    ∧ (∀ (txn : BranchTxn) (index : Nat) (newId : ID) (c : NContent),
        index ≤ txn.blockLen → ∃ t, insertAt txn index newId c = .ok t newId) := by
  refine ⟨?_, ?_, ?_⟩
  · intro txn index len
    unfold removeAt
    split_ifs
    · rcases hw : removeWalk txn.prevMoved txn.items len with ⟨items2, dels, pm2, rem⟩
      simp only [hw]
      omega
    · rcases hp : indexToPtr txn.prevMoved txn.items index with ⟨pre, sufpm⟩
      rcases sufpm with ⟨suf, pm1⟩
      rcases hw : removeWalk pm1 suf len with ⟨items2, dels, pm2, rem⟩
      simp only [hp, hw]
      omega
  · intro txn index newId c h
    unfold insertAt
    rw [if_neg (by omega)]
  · intro txn index newId c h
    unfold insertAt
    rw [if_pos h]
    by_cases h0 : index = 0
    · simp only [h0, if_true]
      exact ⟨_, rfl⟩
    · simp only [h0, if_false]
      exact ⟨_, rfl⟩

/-- Witness for the amended C3 at the concrete branch. -/
theorem C3_out_of_bounds_amended_witness :
    (removeAt c3Txn 0 5).2 ≤ 5 ∧
      insertAt c3Txn 7 ⟨1, 1⟩ (.str [98]) = .panicked insertPanicMsg :=
  ⟨C3_out_of_bounds_amended.1 c3Txn 0 5,
    C3_out_of_bounds_amended.2.1 c3Txn 7 ⟨1, 1⟩ (.str [98]) (by decide)⟩

/-! ## Observer paths (Branch::path)

Embedding of src/yrs/src/branch.rs lines 316-347 over an explicit
environment of items and branches: branch pointers become branch ids and
item pointers become block ids. The walks over parent pointers and over
sibling chains carry fuel, since nothing in an arbitrary environment
rules out cycles; the theorems quantify over the fuel. -/

/-- Item data needed by the path computation: the owning branch (in the
integrated state item.parent.as_branch() always succeeds, so the parent
is a branch id), the optional map key, the right sibling, the block
length and the liveness and countability flags. -/
structure PItem where
  id : ID
  parent : Nat
  parentSub : Option (List Nat)
  right : Option ID
  len : Nat
  deleted : Bool
  countable : Bool
deriving DecidableEq, Repr

/-- Branch data needed by the path computation. -/
structure PBranch where
  item : Option ID
  start : Option ID
deriving DecidableEq, Repr

/-- Environment: item and branch tables. -/
structure PEnv where
  items : List (ID × PItem)
  branches : List (Nat × PBranch)
deriving DecidableEq, Repr

/-- Item lookup. -/
def envItem (env : PEnv) (i : ID) : Option PItem :=
  match env.items.find? (fun p => p.1 == i) with
  | some p => some p.2
  | none => none

/-- Branch lookup. -/
def envBranch (env : PEnv) (b : Nat) : Option PBranch :=
  match env.branches.find? (fun p => p.1 == b) with
  | some p => some p.2
  | none => none

/-- Path segment (enum PathSegment): a map key or a sequence index. -/
inductive PathSegment where
  | key (s : List Nat)
  | index (i : Nat)
deriving DecidableEq, Repr

/-- The inner sibling loop of Branch::path: walk the parent's chain from
start, stopping at the child's id, accumulating ptr.len() over the live
countable items passed. Fails on fuel exhaustion or a dangling pointer. -/
def pathIndexLoop (env : PEnv) : Nat → Option ID → ID → Option Nat
  | _, none, _ => some 0
  | 0, some _, _ => none
  | fuel + 1, some cid, target =>
    match envItem env cid with
    | none => none
    | some it =>
      if it.id = target then some 0
      else
        match pathIndexLoop env fuel it.right target with
        | some i => some ((if ¬ it.deleted ∧ it.countable then it.len else 0) + i)
        | none => none

/-- The outer parent walk of Branch::path: starting from the target
branch, climb owning items until the source branch's item is reached (or
a root), prepending one segment per level: the parent_sub key when the
child lives under a map key, otherwise the accumulated index. -/
def pathLoop (env : PEnv) (fromItem : Option ID) : Nat → PBranch → Option (List PathSegment)
  | 0, _ => none
  | fuel + 1, child =>
    match child.item with
    | none => some []
    | some itemId =>
      if fromItem = some itemId then some []
      else
        match envItem env itemId with
        | none => none
        | some item =>
          match envBranch env item.parent with
          | none => none
          | some child2 =>
            match (match item.parentSub with
              | some k => some (PathSegment.key k)
              | none =>
                (pathIndexLoop env (env.items.length + 1) child2.start item.id).map
                  PathSegment.index) with
            | none => none
            | some seg =>
              match pathLoop env fromItem fuel child2 with
              | some p => some (p ++ [seg])
              | none => none

/-- Branch::path from a source branch to a target branch. -/
def branchPath (env : PEnv) (fuel : Nat) (fromB toB : PBranch) : Option (List PathSegment) :=
  pathLoop env fromB.item fuel toB

/-- Materialization of a sibling chain from a start pointer (the
specification-side view of the parent's list). -/
def chainItems (env : PEnv) : Nat → Option ID → Option (List PItem)
  | _, none => some []
  | 0, some _ => none
  | fuel + 1, some cid =>
    match envItem env cid with
    | none => none
    | some it =>
      match chainItems env fuel it.right with
      | some rest => some (it :: rest)
      | none => none

/-- The live countable items lying strictly to the left of the target in
a materialized chain. -/
def liveCountableBefore (chain : List PItem) (target : ID) : List PItem :=
  (chain.takeWhile (fun it => !(it.id == target))).filter
    (fun it => !it.deleted && it.countable)

/-- Sum of the lengths of the live countable items left of the target:
the index in user units that the code actually computes. -/
def claimIndexUnits (chain : List PItem) (target : ID) : Nat :=
  ((liveCountableBefore chain target).map (fun it => it.len)).sum

/-- Number of live countable items left of the target: the claim's
literal reading of the index. -/
def claimIndexCount (chain : List PItem) (target : ID) : Nat :=
  (liveCountableBefore chain target).length

theorem pathIndexLoop_eq_claimIndexUnits (env : PEnv) (target : ID) :
    ∀ (fuel : Nat) (start : Option ID) (ch : List PItem),
      chainItems env fuel start = some ch →
      pathIndexLoop env fuel start target = some (claimIndexUnits ch target) := by
  intro fuel
  induction fuel with
  | zero =>
    intro start ch h
    cases start with
    | none =>
      simp only [chainItems, Option.some.injEq] at h
      subst h
      rfl
    | some cid => simp [chainItems] at h
  | succ fuel ih =>
    intro start ch h
    cases start with
    | none =>
      simp only [chainItems, Option.some.injEq] at h
      subst h
      rfl
    | some cid =>
      simp only [chainItems] at h
      cases hit : envItem env cid with
      | none => rw [hit] at h; simp at h
      | some it =>
        rw [hit] at h
        dsimp only at h
        cases hch : chainItems env fuel it.right with
        | none => rw [hch] at h; simp at h
        | some rest =>
          rw [hch] at h
          simp only [Option.some.injEq] at h
          subst h
          simp only [pathIndexLoop, hit]
          by_cases he : it.id = target
          · rw [if_pos he]
            have : claimIndexUnits (it :: rest) target = 0 := by
              unfold claimIndexUnits liveCountableBefore
              rw [List.takeWhile_cons]
              simp [he]
            rw [this]
          · rw [if_neg he, ih it.right rest hch]
            have : claimIndexUnits (it :: rest) target =
                (if ¬ it.deleted ∧ it.countable then it.len else 0)
                  + claimIndexUnits rest target := by
              unfold claimIndexUnits liveCountableBefore
              rw [List.takeWhile_cons]
              have hne : (!(it.id == target)) = true := by
                simp [he]
              rw [hne]
              simp only [if_true]
              rw [List.filter_cons]
              by_cases hd : it.deleted
              · simp [hd]
              · by_cases hcnt : it.countable
                · simp [hd, hcnt]
                · simp [hd, hcnt]
            rw [this]

/-- The claim-side path computation (as amended): the same parent walk,
with the index segment computed on the materialized sibling chain as the
sum of the lengths of the live countable items to the child's left. -/
def claimPathLoop (env : PEnv) (fromItem : Option ID) : Nat → PBranch →
    Option (List PathSegment)
  | 0, _ => none
  | fuel + 1, child =>
    match child.item with
    | none => some []
    | some itemId =>
      if fromItem = some itemId then some []
      else
        match envItem env itemId with
        | none => none
        | some item =>
          match envBranch env item.parent with
          | none => none
          | some child2 =>
            match (match item.parentSub with
              | some k => some (PathSegment.key k)
              | none =>
                (chainItems env (env.items.length + 1) child2.start).map
                  (fun ch => PathSegment.index (claimIndexUnits ch item.id))) with
            | none => none
            | some seg =>
              match claimPathLoop env fromItem fuel child2 with
              | some p => some (p ++ [seg])
              | none => none

/-- Claim-side path between branches. -/
def claimBranchPath (env : PEnv) (fuel : Nat) (fromB toB : PBranch) :
    Option (List PathSegment) :=
  claimPathLoop env fromB.item fuel toB

theorem pathLoop_eq_claimPathLoop (env : PEnv)
    (hb : ∀ b br, envBranch env b = some br →
      (chainItems env (env.items.length + 1) br.start).isSome = true)
    (fi : Option ID) :
    ∀ (fuel : Nat) (child : PBranch),
      pathLoop env fi fuel child = claimPathLoop env fi fuel child := by
  intro fuel
  induction fuel with
  | zero => intro child; rfl
  | succ fuel ih =>
    intro child
    unfold pathLoop claimPathLoop
    cases hci : child.item with
    | none => rfl
    | some itemId =>
      dsimp only
      by_cases hfi : fi = some itemId
      · rw [if_pos hfi, if_pos hfi]
      · rw [if_neg hfi, if_neg hfi]
        cases hit : envItem env itemId with
        | none => rfl
        | some item =>
          dsimp only
          cases hbr : envBranch env item.parent with
          | none => rfl
          | some child2 =>
            dsimp only
            have hchain := hb item.parent child2 hbr
            rw [Option.isSome_iff_exists] at hchain
            obtain ⟨ch, hch⟩ := hchain
            cases hps : item.parentSub with
            | some k =>
              simp only [hps]
              rw [ih child2]
            | none =>
              simp only [hps]
              rw [hch, pathIndexLoop_eq_claimIndexUnits env item.id
                (env.items.length + 1) child2.start ch hch]
              dsimp only [Option.map]
              rw [ih child2]

/-- Live countable item of length 2, first in the root branch's list. -/
def c6A : PItem :=
  { id := ⟨1, 0⟩, parent := 0, parentSub := none, right := some ⟨1, 2⟩,
    len := 2, deleted := false, countable := true }

/-- The child-owning item, sitting right of c6A. -/
def c6B : PItem :=
  { id := ⟨1, 2⟩, parent := 0, parentSub := none, right := none,
    len := 1, deleted := false, countable := true }

/-- Root branch: no owning item, list starts at c6A. -/
def c6Root : PBranch := { item := none, start := some ⟨1, 0⟩ }

/-- Nested branch owned by item c6B. -/
def c6Child : PBranch := { item := some ⟨1, 2⟩, start := none }

/-- Environment with the two items and two branches above. -/
def c6Env : PEnv :=
  { items := [(⟨1, 0⟩, c6A), (⟨1, 2⟩, c6B)],
    branches := [(0, c6Root), (1, c6Child)] }

/-- C6 counterexample: Branch::path accumulates ptr.len() of each live
countable item passed (here the single item c6A of length 2, giving the
segment Index 2), while the claim's index — the number of live countable
items lying to the child's left — is 1. The path code computes an index
in user-visible units, not an item count. -/
theorem C6_path_counterexample :
    branchPath c6Env 2 c6Root c6Child = some [PathSegment.index 2] ∧
    (chainItems c6Env (c6Env.items.length + 1) c6Root.start).map
      (fun ch => claimIndexCount ch ⟨1, 2⟩) = some 1 ∧
    PathSegment.index 2 ≠ PathSegment.index 1 := by decide

/-- C6 (amended): for every branch child of a source branch, the path
computed by Branch::path prepends, per nesting level, the parent_sub key
when the child item lives under a map key, and otherwise the integer
offset of the child item within its parent's list obtained by summing the
lengths (ptr.len()) of the live (non-deleted) countable items lying to
the child's left — i.e. the user-visible offset, not the item count. The
hypothesis materializes every branch's sibling chain (finite, acyclic
lists, as in any integrated store). -/
theorem C6_path_amended (env : PEnv)
    (hwf : ∀ p ∈ env.branches,
      (chainItems env (env.items.length + 1) p.2.start).isSome = true) :
    ∀ (fuel : Nat) (fromB toB : PBranch),
      branchPath env fuel fromB toB = claimBranchPath env fuel fromB toB := by
  intro fuel fromB toB
  apply pathLoop_eq_claimPathLoop
  intro b br hb
  unfold envBranch at hb
  cases hf : env.branches.find? (fun p => p.1 == b) with
  | none => rw [hf] at hb; simp at hb
  | some p =>
    rw [hf] at hb
    simp only [Option.some.injEq] at hb
    subst hb
    exact hwf p (List.mem_of_find?_eq_some hf)

/-- C6 witness: the amended equality evaluated at the two-item
environment, with the chain-materialization hypothesis discharged by
computation. -/
theorem C6_path_amended_witness :
    (∀ p ∈ c6Env.branches,
      (chainItems c6Env (c6Env.items.length + 1) p.2.start).isSome = true) ∧
    branchPath c6Env 2 c6Root c6Child = claimBranchPath c6Env 2 c6Root c6Child :=
  ⟨by decide, C6_path_amended c6Env (by decide) 2 c6Root c6Child⟩

/- C8 — move-aware cursor traversal (cursor.rs: RawCursor::forward lines
188-254, can_forward lines 166-185, RawCursor::read pop loop lines
458-470, MoveStack::descent lines 617-637). Item pointers become IDs
resolved through a finite item table; a pointer dereference that cannot
fail in Rust is modelled as a lookup whose failure aborts the run with
none (it never fires under the theorems' hypotheses or on the concrete
environments). The while loop runs on explicit fuel. -/

/-- Modelled from the spec: item content as seen by the cursor (block.rs
is absent from the sources). A move item carries its already-resolved
moved range (start, end) — the get_moved_coords output — and is neither
countable nor counted; plain content has a length and a countable flag. -/
inductive CContent where
  | move (start endP : Option ID)
  | plain (len : Nat) (countable : Bool)
deriving DecidableEq, Repr

/-- Modelled from the spec: the item fields read by the cursor — right
sibling, content, deletion flag, and the moved pointer naming the move
item (dest) whose scope currently owns this item, if any. -/
structure CItem where
  id : ID
  right : Option ID
  content : CContent
  deleted : Bool
  moved : Option ID
deriving DecidableEq, Repr

/-- Countability as the cursor sees it: move content is not countable. -/
def CItem.isCountable (it : CItem) : Bool :=
  match it.content with
  | CContent.move _ _ => false
  | CContent.plain _ c => c

/-- Content length as the cursor sees it: move content has length 0. -/
def CItem.contentLen (it : CItem) : Nat :=
  match it.content with
  | CContent.move _ _ => 0
  | CContent.plain n _ => n

/-- MoveScope: first and last moved block and the move item (dest). -/
structure MoveScope where
  start : Option ID
  endP : Option ID
  dest : ID
deriving DecidableEq, Repr

/-- RawCursor state: absolute index, offset inside the current block,
current item, end flag and the move stack (head = top of stack). -/
structure CursorState where
  index : Nat
  blockOffset : Nat
  currentItem : Option ID
  reachedEnd : Bool
  moveStack : List MoveScope
deriving DecidableEq, Repr

/-- Cursor environment: the item table and the branch content length. -/
structure CEnv where
  items : List (ID × CItem)
  contentLen : Nat
deriving DecidableEq, Repr

/-- Item lookup by id. -/
def cenvItem (env : CEnv) (i : ID) : Option CItem :=
  match env.items.find? (fun p => p.1 == i) with
  | some p => some p.2
  | none => none

/-- Dest pointer of the current (topmost) move scope: the curr_move of
forward and can_forward. -/
def stackMove (stk : List MoveScope) : Option ID :=
  match stk.head? with
  | none => none
  | some s => some s.dest

/-- End pointer of the current (topmost) move scope: the curr_move_end
of forward and can_forward. -/
def stackMoveEnd (stk : List MoveScope) : Option ID :=
  match stk.head? with
  | none => none
  | some s => s.endP

/-- RawCursor::can_forward (lines 166-185): the loop guard of forward. -/
def canForward (env : CEnv) (st : CursorState) (ptr : Option ID) (len : Nat) : Bool :=
  if st.reachedEnd = false ∨ (st.moveStack.head?).isSome = true then
    if 0 < len then true
    else
      match ptr with
      | none => false
      | some pid =>
        match cenvItem env pid with
        | none => false
        | some item =>
          decide (item.isCountable = false) || item.deleted
            || decide (ptr = stackMoveEnd st.moveStack)
            || (st.reachedEnd && decide (stackMoveEnd st.moveStack = none))
            || decide (¬ item.moved = stackMove st.moveStack)
  else false

/-- The loop-bottom advance of forward (lines 241-248): an early false
return when reached_end is still set, otherwise step to the right
sibling or set reached_end at the chain's end. Sum.inr signals the
early false return, Sum.inl carries the next loop state. -/
def fwdAdvance (env : CEnv) (st : CursorState) (item : Option ID) :
    Option ((CursorState × Option ID) ⊕ CursorState) :=
  if st.reachedEnd then some (Sum.inr st)
  else
    match item with
    | some iid =>
      match cenvItem env iid with
      | none => none
      | some it =>
        match it.right with
        | some r => some (Sum.inl (st, some r))
        | none => some (Sum.inl ({ st with reachedEnd := true }, item))
    | none => some (Sum.inl ({ st with reachedEnd := true }, item))

/-- One iteration outcome of the forward while loop: the loop ends with
the final (state, item, len, normal-exit flag), or continues with new
loop variables. -/
inductive FwdStep where
  | done (res : CursorState × Option ID × Nat × Bool)
  | next (st : CursorState) (item : Option ID) (len : Nat)
deriving Repr

/-- One iteration of the while loop of RawCursor::forward (lines
205-249): the can_forward guard, the pop branch, the countable
consumption branch with its break, the move-push branch and the
loop-bottom advance. In the result tuple the Bool is true for a normal
loop exit (guard failure or break) and false for an early return false.
The MoveStack::descent stale-pointer repair is the identity in a
read-only traversal, so descent is a plain pop here. -/
def fwdBody (env : CEnv) (st : CursorState) (item : Option ID) (len : Nat) :
    Option FwdStep :=
  if canForward env st item len then
    if item = stackMoveEnd st.moveStack ∨
        (st.reachedEnd = true ∧ stackMoveEnd st.moveStack = none ∧
          (stackMove st.moveStack).isSome = true) then
      match fwdAdvance env
          { st with moveStack := st.moveStack.tail, reachedEnd := false }
          (stackMove st.moveStack) with
      | none => none
      | some (Sum.inr st3) =>
        some (FwdStep.done (st3, stackMove st.moveStack, len, false))
      | some (Sum.inl (st3, item3)) => some (FwdStep.next st3 item3 len)
    else
      match item with
      | none => some (FwdStep.done (st, none, len, false))
      | some iid =>
        match cenvItem env iid with
        | none => none
        | some it =>
          if it.isCountable = true ∧ it.deleted = false ∧
              it.moved = stackMove st.moveStack ∧ 0 < len then
            if len < it.contentLen then
              some (FwdStep.done ({ st with blockOffset := len }, item, 0, true))
            else
              match fwdAdvance env st item with
              | none => none
              | some (Sum.inr st3) =>
                some (FwdStep.done (st3, item, len - it.contentLen, false))
              | some (Sum.inl (st3, item3)) =>
                some (FwdStep.next st3 item3 (len - it.contentLen))
          else
            match it.content with
            | CContent.move ms me =>
              if it.moved = stackMove st.moveStack then
                some (FwdStep.next
                  { st with moveStack := MoveScope.mk ms me iid :: st.moveStack }
                  ms len)
              else
                match fwdAdvance env st item with
                | none => none
                | some (Sum.inr st3) => some (FwdStep.done (st3, item, len, false))
                | some (Sum.inl (st3, item3)) => some (FwdStep.next st3 item3 len)
            | CContent.plain _ _ =>
              match fwdAdvance env st item with
              | none => none
              | some (Sum.inr st3) => some (FwdStep.done (st3, item, len, false))
              | some (Sum.inl (st3, item3)) => some (FwdStep.next st3 item3 len)
  else some (FwdStep.done (st, item, len, true))

/-- The while loop of RawCursor::forward, one fuel unit per iteration. -/
def fwdLoop (env : CEnv) : Nat → CursorState → Option ID → Nat →
    Option (CursorState × Option ID × Nat × Bool)
  | 0, _, _, _ => none
  | fuel + 1, st, item, len =>
    match fwdBody env st item len with
    | none => none
    | some (FwdStep.done r) => some r
    | some (FwdStep.next st2 item2 len2) => fwdLoop env fuel st2 item2 len2

/-- RawCursor::forward (lines 188-254): entry guards, index bump, block
offset absorption, the loop, and the post-loop commit of index and
current_item on a normal loop exit. -/
def CursorState.forward (env : CEnv) (fuel : Nat) (st : CursorState) (len : Nat) :
    Option (CursorState × Bool) :=
  if len = 0 ∧ st.currentItem = none then some (st, true)
  else if env.contentLen < st.index + len ∨ st.currentItem = none then some (st, false)
  else
    match fwdLoop env fuel
        { st with index := st.index + len, blockOffset := 0 }
        st.currentItem (len + st.blockOffset) with
    | none => none
    | some (st2, item, len2, completed) =>
      if completed then
        some ({ st2 with index := st2.index - len2, currentItem := item }, true)
      else some (st2, false)

/-- The frame-popping loop of RawCursor::read (lines 458-470), entered
when the cursor reached the list end while the move stack is non-empty:
pop frames, resuming at the first popped dest's non-null right
neighbour; the result is the remaining stack, the next item and the
reached_end flag. -/
def readPopFrames (env : CEnv) : List MoveScope → Option ID → Bool →
    Option (List MoveScope × Option ID × Bool)
  | [], item, re => some ([], item, re)
  | scope :: rest, _, _ =>
    match cenvItem env scope.dest with
    | none => none
    | some d =>
      match d.right with
      | some r => some (rest, some r, false)
      | none => readPopFrames env rest none false

/-- Move item whose moved pointer names a foreign (inactive) move scope:
the current item of the counterexample traversal. -/
def c8A : CItem :=
  { id := ⟨1, 0⟩, right := some ⟨1, 1⟩,
    content := CContent.move (some ⟨1, 1⟩) (some ⟨1, 1⟩),
    deleted := false, moved := some ⟨9, 9⟩ }

/-- Plain countable item right of c8A. -/
def c8B : CItem :=
  { id := ⟨1, 1⟩, right := none, content := CContent.plain 1 true,
    deleted := false, moved := none }

/-- Counterexample environment: the two items, branch content length 1. -/
def c8Env : CEnv :=
  { items := [(⟨1, 0⟩, c8A), (⟨1, 1⟩, c8B)], contentLen := 1 }

/-- Fresh cursor standing on the move item c8A. -/
def c8Start : CursorState :=
  { index := 0, blockOffset := 0, currentItem := some ⟨1, 0⟩,
    reachedEnd := false, moveStack := [] }

/-- C8 counterexample: the cursor's current item c8A holds Move content,
yet forward(1) pushes no frame and performs no jump to the move's start:
because c8A.moved (a foreign move scope) differs from curr_move (none),
line 230's `i.moved == curr_move` guard rejects the push and the item is
simply stepped over, ending on c8B with an empty move stack. The claim's
unconditional "whenever the current item holds Move content a frame is
pushed and traversal jumps to start" is false. -/
theorem C8_move_stack_counterexample :
    (cenvItem c8Env ⟨1, 0⟩).map CItem.content
      = some (CContent.move (some ⟨1, 1⟩) (some ⟨1, 1⟩)) ∧
    c8Start.currentItem = some ⟨1, 0⟩ ∧
    CursorState.forward c8Env 5 c8Start 1 =
      some ({ index := 1, blockOffset := 0, currentItem := some ⟨1, 1⟩,
              reachedEnd := true, moveStack := [] }, true) := by decide

/-- C8 (amended): in RawCursor traversal, (1) a frame {start, end, dest}
is pushed and traversal jumps to start only when the current item holds
Move content AND its moved pointer equals the current scope's dest
(curr_move) — a move item claimed by a different scope is stepped over;
(2) in forward, a frame is popped when the loop item equals the frame's
end, or at the list end only when the frame's end pointer is None, and
traversal then resumes at dest.right (at the list end under a frame
whose end is a live pointer that was never met, forward instead fails);
(3) the pop loop of read resumes, after popping, at the first popped
frame's dest.right. -/
theorem C8_move_stack_amended (env : CEnv) :
    (∀ (fuel : Nat) (st : CursorState) (iid : ID) (it : CItem)
        (ms me : Option ID) (len : Nat) (cm : Option ID),
      stackMove st.moveStack = cm →
      cenvItem env iid = some it →
      it.content = CContent.move ms me →
      it.moved = cm →
      canForward env st (some iid) len = true →
      ¬ (some iid = stackMoveEnd st.moveStack ∨
          (st.reachedEnd = true ∧ stackMoveEnd st.moveStack = none ∧
            cm.isSome = true)) →
      fwdLoop env (fuel + 1) st (some iid) len =
        fwdLoop env fuel
          { st with moveStack := MoveScope.mk ms me iid :: st.moveStack }
          ms len) ∧
    (∀ (fuel : Nat) (st : CursorState) (s : MoveScope) (rest : List MoveScope)
        (item : Option ID) (len : Nat) (d : CItem) (r : ID),
      st.moveStack = s :: rest →
      cenvItem env s.dest = some d →
      d.right = some r →
      canForward env st item len = true →
      (item = s.endP ∨ (st.reachedEnd = true ∧ s.endP = none)) →
      fwdLoop env (fuel + 1) st item len =
        fwdLoop env fuel
          { st with moveStack := rest, reachedEnd := false } (some r) len) ∧
    (∀ (s : MoveScope) (rest : List MoveScope) (item : Option ID) (re : Bool)
        (d : CItem) (r : ID),
      cenvItem env s.dest = some d →
      d.right = some r →
      readPopFrames env (s :: rest) item re = some (rest, some r, false)) := by
  refine ⟨?_, ?_, ?_⟩
  · intro fuel st iid it ms me len cm hcm hit hcont hmoved hcf hne
    have hbody : fwdBody env st (some iid) len =
        some (FwdStep.next
          { st with moveStack := MoveScope.mk ms me iid :: st.moveStack }
          ms len) := by
      unfold fwdBody
      rw [if_pos hcf]
      rw [hcm]
      rw [if_neg hne]
      dsimp only
      rw [hit]
      dsimp only
      have hic : it.isCountable = false := by
        unfold CItem.isCountable
        rw [hcont]
      rw [if_neg (by simp [hic])]
      rw [hcont]
      dsimp only
      rw [if_pos hmoved]
    simp only [fwdLoop]
    rw [hbody]
  · intro fuel st s rest item len d r hstack hd hr hcf hpop
    have hbody : fwdBody env st item len =
        some (FwdStep.next { st with moveStack := rest, reachedEnd := false }
          (some r) len) := by
      unfold fwdBody
      rw [if_pos hcf]
      rw [hstack]
      simp only [stackMove, stackMoveEnd, List.head?_cons, List.tail_cons]
      have hcond : item = s.endP ∨
          (st.reachedEnd = true ∧ s.endP = none ∧
            (Option.some s.dest).isSome = true) := by
        rcases hpop with h | ⟨h1, h2⟩
        · exact Or.inl h
        · exact Or.inr ⟨h1, h2, rfl⟩
      rw [if_pos hcond]
      have hadv : fwdAdvance env
          ({ st with moveStack := rest, reachedEnd := false })
          (some s.dest) =
          some (Sum.inl ({ st with moveStack := rest, reachedEnd := false },
            some r)) := by
        unfold fwdAdvance
        dsimp only
        rw [if_neg (by decide)]
        rw [hd]
        dsimp only
        rw [hr]
      rw [hadv]
    simp only [fwdLoop]
    rw [hbody]
  · intro s rest item re d r hd hr
    unfold readPopFrames
    rw [hd]
    dsimp only
    rw [hr]

/-- Environment for the amended-rule witness: move item c8M relocating
the range [c8S1, c8S2], whose right neighbour is c8R. -/
def c8M : CItem :=
  { id := ⟨2, 0⟩, right := some ⟨2, 3⟩,
    content := CContent.move (some ⟨2, 1⟩) (some ⟨2, 2⟩),
    deleted := false, moved := none }

/-- First moved item. -/
def c8S1 : CItem :=
  { id := ⟨2, 1⟩, right := some ⟨2, 2⟩, content := CContent.plain 1 true,
    deleted := false, moved := some ⟨2, 0⟩ }

/-- Last moved item. -/
def c8S2 : CItem :=
  { id := ⟨2, 2⟩, right := none, content := CContent.plain 1 true,
    deleted := false, moved := some ⟨2, 0⟩ }

/-- Item right of the move item. -/
def c8R : CItem :=
  { id := ⟨2, 3⟩, right := none, content := CContent.plain 1 true,
    deleted := false, moved := none }

/-- Witness environment. -/
def c8WEnv : CEnv :=
  { items := [(⟨2, 0⟩, c8M), (⟨2, 1⟩, c8S1), (⟨2, 2⟩, c8S2), (⟨2, 3⟩, c8R)],
    contentLen := 3 }

/-- The move scope of c8M with resolved coordinates. -/
def c8WScope : MoveScope :=
  { start := some ⟨2, 1⟩, endP := some ⟨2, 2⟩, dest := ⟨2, 0⟩ }

/-- Loop state about to traverse the move item. -/
def c8StA : CursorState :=
  { index := 3, blockOffset := 0, currentItem := some ⟨2, 0⟩,
    reachedEnd := false, moveStack := [] }

/-- Loop state standing on the scope's end item with the frame active. -/
def c8StB : CursorState :=
  { index := 3, blockOffset := 0, currentItem := some ⟨2, 2⟩,
    reachedEnd := false, moveStack := [c8WScope] }

/-- C8 witness: the three amended rules evaluated on the concrete move
environment — the push at the move item jumping to its start, the pop at
the scope's end item resuming right of dest, and the read pop loop. -/
theorem C8_move_stack_amended_witness :
    (canForward c8WEnv c8StA (some ⟨2, 0⟩) 2 = true ∧
      fwdLoop c8WEnv 10 c8StA (some ⟨2, 0⟩) 2 =
        fwdLoop c8WEnv 9 { c8StA with moveStack := [c8WScope] } (some ⟨2, 1⟩) 2) ∧
    (canForward c8WEnv c8StB (some ⟨2, 2⟩) 1 = true ∧
      fwdLoop c8WEnv 10 c8StB (some ⟨2, 2⟩) 1 =
        fwdLoop c8WEnv 9 { c8StB with moveStack := [], reachedEnd := false }
          (some ⟨2, 3⟩) 1) ∧
    readPopFrames c8WEnv [c8WScope] none true = some ([], some ⟨2, 3⟩, false) :=
  ⟨⟨by decide, (C8_move_stack_amended c8WEnv).1 9 c8StA ⟨2, 0⟩ c8M (some ⟨2, 1⟩)
      (some ⟨2, 2⟩) 2 none (by decide) (by decide) (by decide) (by decide)
      (by decide) (by decide)⟩,
   ⟨by decide, (C8_move_stack_amended c8WEnv).2.1 9 c8StB c8WScope [] (some ⟨2, 2⟩)
      1 c8M ⟨2, 3⟩ (by decide) (by decide) (by decide) (by decide) (by decide)⟩,
   (C8_move_stack_amended c8WEnv).2.2 c8WScope [] none true c8M ⟨2, 3⟩ (by decide)
      (by decide)⟩
